import Mathlib

/-!
Shallow embedding of the hybrid crawl engine of the autoCrawler repository:
the error classifier and retry policy (errorHandler.js), the static fetcher
retry loop (crawlerAxios.js), the URL normalizer and sanitizer
(urlValidator.js), the method detector (crawlerDetector.js), and the hybrid
orchestrator and recursive scheduler (hybridCrawler.js, event-emitting
version).  JavaScript strings are Lean strings, numbers that the code uses
as integers are Nat, the heuristic confidence score (whose weights are all
exact multiples of 0.1) is carried exactly in integer tenths,
fallible operations return Option or Except, and the external collaborators
(axios transport, headless browser, cheerio analysis) enter as explicit
oracle functions.
-/

namespace AutoCrawler

/-! ### Character-list helpers used to model JavaScript string operations -/

/-- Does the first list of characters stand at the head of the second one? -/
def leadsWith : List Char → List Char → Bool
  | [], _ => true
  | _ :: _, [] => false
  | a :: as, b :: bs => a == b && leadsWith as bs

/-- Does the pattern occur anywhere inside the list?  Models
JavaScript String.prototype.includes. -/
def hasSubList (pat : List Char) : List Char → Bool
  | [] => leadsWith pat []
  | c :: cs => leadsWith pat (c :: cs) || hasSubList pat cs

/-- String containment test, models s.includes(pat). -/
def strHas (s pat : String) : Bool := hasSubList pat.toList s.toList

/-- ASCII lower-casing of one character, models the lower-casing the WHATWG
URL parser applies to scheme and host. -/
def lowerChar (c : Char) : Char :=
  if 'A' ≤ c ∧ c ≤ 'Z' then Char.ofNat (c.toNat + 32) else c

/-- ASCII lower-casing of a string, models s.toLowerCase() on ASCII data. -/
def lowerStr (s : String) : String := ⟨s.toList.map lowerChar⟩

/-! ### Error model (errorHandler.js)

A JavaScript Error as the crawler observes it: an optional code property, a
message, and an optional response carrying an HTTP status
(error.response.status).  The response model merges presence of
error.response with presence of its status field, which is how the
code reads it. -/

structure JsError where
  code : Option String
  message : String
  responseStatus : Option Nat
deriving DecidableEq, Repr

deriving instance DecidableEq for Except

/-- Closed taxonomy of ERROR_TYPES in errorHandler.js.  The HTTP case carries
the status because the source builds the string HTTP_ERROR_status. -/
inductive ErrorType where
  | SSL_CERT_EXPIRED
  | SSL_CERT_INVALID
  | SSL_SELF_SIGNED
  | SSL_ERROR
  | TIMEOUT
  | CONNECTION_REFUSED
  | DNS_ERROR
  | RATE_LIMITED
  | HTTP_ERROR (status : Nat)
  | INVALID_URL
  | UNKNOWN_ERROR
deriving DecidableEq, Repr

/-- Printable name of an error type, as interpolated into messages by the
source (the HTTP case prints HTTP_ERROR_status). -/
def ErrorType.name : ErrorType → String
  | .SSL_CERT_EXPIRED => "SSL_CERT_EXPIRED"
  | .SSL_CERT_INVALID => "SSL_CERT_INVALID"
  | .SSL_SELF_SIGNED => "SSL_SELF_SIGNED"
  | .SSL_ERROR => "SSL_ERROR"
  | .TIMEOUT => "TIMEOUT"
  | .CONNECTION_REFUSED => "CONNECTION_REFUSED"
  | .DNS_ERROR => "DNS_ERROR"
  | .RATE_LIMITED => "RATE_LIMITED"
  | .HTTP_ERROR s => "HTTP_ERROR_" ++ toString s
  | .INVALID_URL => "INVALID_URL"
  | .UNKNOWN_ERROR => "UNKNOWN_ERROR"

/-- getErrorType from errorHandler.js: first matching clause wins, in source
order (SSL certificate codes, generic SSL, timeout, refused, DNS, HTTP 429,
any response status, invalid URL, unknown). -/
def getErrorType (e : JsError) : ErrorType :=
  if e.code = some "CERT_HAS_EXPIRED" then .SSL_CERT_EXPIRED
  else if e.code = some "UNABLE_TO_VERIFY_LEAF_SIGNATURE" ∨
          e.code = some "ERR_TLS_CERT_ALTNAME_INVALID" then .SSL_CERT_INVALID
  else if e.code = some "SELF_SIGNED_CERT_IN_CHAIN" ∨
          e.code = some "DEPTH_ZERO_SELF_SIGNED_CERT" then .SSL_SELF_SIGNED
  else if e.code = some "EPROTO" ∨ strHas e.message "SSL" ∨
          strHas e.message "TLS" then .SSL_ERROR
  else if e.code = some "ETIMEDOUT" ∨ strHas e.message "timeout" then .TIMEOUT
  else if e.code = some "ECONNREFUSED" then .CONNECTION_REFUSED
  else if e.code = some "ENOTFOUND" then .DNS_ERROR
  else if e.responseStatus = some 429 then .RATE_LIMITED
  else match e.responseStatus with
    | some s => .HTTP_ERROR s
    | none =>
      if e.code = some "ERR_INVALID_URL" then .INVALID_URL
      else .UNKNOWN_ERROR

/-- Severity levels of ERROR_SEVERITY in errorHandler.js. -/
inductive Severity where
  | LOW
  | MEDIUM
  | HIGH
  | CRITICAL
deriving DecidableEq, Repr

/-- Detailed classification record returned by getDetailedErrorInfo. -/
structure ErrorInfo where
  type : ErrorType
  severity : Severity
  isRetryable : Bool
  userMessage : String
deriving DecidableEq, Repr

/-- getDetailedErrorInfo from errorHandler.js: severity, retryability and
user message per classified kind; the default branch splits the HTTP case
into the 4xx and 5xx ranges.  A 4xx other than 429 reaches the default
branch as HTTP_ERROR, and statuses below 400 keep the initialized
MEDIUM and non-retryable values, as in the source. -/
def getDetailedErrorInfo (e : JsError) : ErrorInfo :=
  let t := getErrorType e
  match t with
  | .SSL_CERT_EXPIRED =>
    ⟨t, .HIGH, false, "SSL certificate has expired"⟩
  | .SSL_CERT_INVALID =>
    ⟨t, .HIGH, false, "SSL certificate is invalid or unverified"⟩
  | .SSL_SELF_SIGNED =>
    ⟨t, .MEDIUM, true, "Site uses a self-signed SSL certificate"⟩
  | .SSL_ERROR =>
    ⟨t, .HIGH, true, "SSL/TLS handshake failed"⟩
  | .TIMEOUT =>
    ⟨t, .MEDIUM, true, "Connection timed out - site may be slow or unresponsive"⟩
  | .CONNECTION_REFUSED =>
    ⟨t, .HIGH, false, "Connection refused - site may be offline"⟩
  | .DNS_ERROR =>
    ⟨t, .CRITICAL, false, "Domain not found - check the URL"⟩
  | .RATE_LIMITED =>
    ⟨t, .MEDIUM, true, "Rate limited - too many requests"⟩
  | .INVALID_URL =>
    ⟨t, .CRITICAL, false, "Invalid URL format"⟩
  | .HTTP_ERROR s =>
    if 400 ≤ s ∧ s < 500 then
      ⟨t, .MEDIUM, false, "HTTP " ++ toString s ++ " - Client error"⟩
    else if 500 ≤ s then
      ⟨t, .HIGH, true, "HTTP " ++ toString s ++ " - Server error"⟩
    else
      ⟨t, .MEDIUM, false, "An error occurred"⟩
  | .UNKNOWN_ERROR =>
    ⟨t, .MEDIUM, false, e.message⟩

/-- shouldNotRetry from errorHandler.js: a fixed list of error codes and a
fixed list of client-error statuses are never retried. -/
def shouldNotRetry (e : JsError) : Bool :=
  let noRetryErrors := ["ENOTFOUND", "ERR_INVALID_URL", "CERT_HAS_EXPIRED", "ECONNREFUSED"]
  let noRetryStatuses := [400, 401, 403, 404, 410]
  (match e.code with
   | some c => noRetryErrors.contains c
   | none => false) ||
  (match e.responseStatus with
   | some s => noRetryStatuses.contains s
   | none => false)

/-! ### Static fetcher retry loop (crawlerAxios.js, fetchWithRetry)

The two axios instances are abstracted into oracles: secure n is the
outcome of the n-th Strict-profile GET, legacy the outcome of the single
Legacy-profile GET.  The loop is recursed on the number of remaining
attempts (maxRetries - attempt); each step records what it did. -/

structure HttpResponse where
  status : Nat
  body : String
deriving DecidableEq, Repr

/-- One observable step of fetchWithRetry. -/
inductive FetchStep where
  | secureAttempt (n : Nat)
  | legacyAttempt
  | backoff (ms : Nat)
deriving DecidableEq, Repr

/-- Loop body of fetchWithRetry, starting at a given attempt number with
remaining = maxRetries - attempt further attempts allowed.  Mirrors the
source: a Strict success returns; a failure classified SSL_ERROR triggers
exactly one Legacy attempt whose outcome (success or error) is returned; a
retryable failure with attempts left sleeps 1500 * attempt and retries;
anything else is thrown. -/
def fetchLoop (secure : Nat → Except JsError HttpResponse)
    (legacy : Except JsError HttpResponse) :
    Nat → Nat → Except JsError HttpResponse × List FetchStep
  | attempt, remaining =>
    match secure attempt with
    | .ok resp => (.ok resp, [.secureAttempt attempt])
    | .error e =>
      if getErrorType e = .SSL_ERROR then
        (legacy, [.secureAttempt attempt, .legacyAttempt])
      else
        match remaining with
        | 0 => (.error e, [.secureAttempt attempt])
        | r + 1 =>
          if shouldNotRetry e then (.error e, [.secureAttempt attempt])
          else
            let rest := fetchLoop secure legacy (attempt + 1) r
            (rest.1, .secureAttempt attempt :: .backoff (1500 * attempt) :: rest.2)

/-- fetchWithRetry from crawlerAxios.js.  Attempts are numbered from 1; when
maxRetries is zero the JavaScript loop body never runs and the function
returns undefined, modelled as none. -/
def fetchWithRetry (secure : Nat → Except JsError HttpResponse)
    (legacy : Except JsError HttpResponse) (maxRetries : Nat := 2) :
    Option (Except JsError HttpResponse × List FetchStep) :=
  match maxRetries with
  | 0 => none
  | m + 1 => some (fetchLoop secure legacy 1 m)

/-! ### URL model (urlValidator.js)

The WHATWG URL parser used through new URL(s) is modelled for absolute
scheme://... URLs: the scheme is the all-alphabetic text before the first
colon, the authority runs to the first slash, question mark or hash, the
path to the first question mark or hash (an empty path reads as the root
path, as pathname does), the query sits between the question mark and the
hash, and the fragment follows the hash.  Scheme and host are lower-cased
by the parser, as the WHATWG parser does; the path keeps its case.
Percent-encoding, dot-segment removal, punycode and default-port elision
are outside the model. -/

structure UrlParts where
  scheme : String
  host : String
  path : String
  query : String
  fragment : String
deriving DecidableEq, Repr

/-- Splits a character list at the first occurrence of one of the stop
characters; the stop character stays at the head of the second component. -/
def splitAtChar (stops : List Char) : List Char → List Char × List Char
  | [] => ([], [])
  | c :: cs =>
    if stops.contains c then ([], c :: cs)
    else (c :: (splitAtChar stops cs).1, (splitAtChar stops cs).2)

/-- Model of new URL(s) for absolute URLs, returning none where the
JavaScript constructor throws. -/
def parseUrl (s : String) : Option UrlParts :=
  let p := splitAtChar [':'] s.toList
  match p.2 with
  | ':' :: '/' :: '/' :: rest =>
    if p.1 = [] ∨ ¬ p.1.all Char.isAlpha then none
    else
      let a := splitAtChar ['/', '?', '#'] rest
      if a.1 = [] then none
      else
        let pa := splitAtChar ['?', '#'] a.2
        let path := if pa.1 = [] then ['/'] else pa.1
        let qf :=
          match pa.2 with
          | '?' :: qrest => splitAtChar ['#'] qrest
          | other => ([], other)
        let frag := match qf.2 with | '#' :: fr => fr | _ => []
        some { scheme := ⟨p.1.map lowerChar⟩, host := ⟨a.1.map lowerChar⟩,
               path := ⟨path⟩, query := ⟨qf.1⟩, fragment := ⟨frag⟩ }
  | _ => none

/-- Origin of a parsed URL: protocol, separator and host, as url.origin
prints it for http and https URLs. -/
def UrlParts.origin (u : UrlParts) : String := u.scheme ++ "://" ++ u.host

/-- Host name of a parsed URL: the host with any port removed, as
url.hostname reads it. -/
def UrlParts.hostName (u : UrlParts) : String := ⟨(splitAtChar [':'] u.host.toList).1⟩

/-- Serialization of a parsed URL back to a string, as url.href prints it
within the modelled fragment-free normal forms. -/
def UrlParts.href (u : UrlParts) : String :=
  u.origin ++ u.path ++ (if u.query = "" then "" else "?" ++ u.query) ++
    (if u.fragment = "" then "" else "#" ++ u.fragment)

/-- Removal of one trailing slash, the effect of replace with the regular
expression matching a final slash and the empty replacement. -/
def stripOneTrailingSlash (p : String) : String :=
  match p.toList.reverse with
  | '/' :: rest => ⟨rest.reverse⟩
  | _ => p

/-- normalizeUrl from urlValidator.js: origin plus pathname with one
trailing slash removed; none when parsing fails. -/
def normalizeUrl (s : String) : Option String :=
  match parseUrl s with
  | none => none
  | some u => some (u.origin ++ stripOneTrailingSlash u.path)

/-- The malicious scheme substrings filtered by isValidUrlFormat. -/
def maliciousSchemes : List String :=
  ["javascript:", "data:", "file:", "vbscript:", "about:"]

/-- isValidUrlFormat from urlValidator.js: parseable, protocol http or
https, and no malicious scheme substring anywhere in the lower-cased
string. -/
def isValidUrlFormat (s : String) : Bool :=
  match parseUrl s with
  | none => false
  | some u =>
    (u.scheme == "http" || u.scheme == "https") &&
      !(maliciousSchemes.any fun m => strHas (lowerStr s) m)

/-- Relative reference split into path, query and fragment pieces. -/
def splitRef (s : String) : List Char × List Char × List Char :=
  let pa := splitAtChar ['?', '#'] s.toList
  let qf :=
    match pa.2 with
    | '?' :: qrest => splitAtChar ['#'] qrest
    | other => ([], other)
  let frag := match qf.2 with | '#' :: fr => fr | _ => []
  (pa.1, qf.1, frag)

/-- Directory part of a path: everything up to and including the last
slash, the base for merging a relative path. -/
def dirOf (p : String) : String :=
  let r := splitAtChar ['/'] p.toList.reverse
  ⟨r.2.reverse⟩

/-- Model of new URL(rel, base): an absolute rel wins; otherwise rel is
resolved against the parsed base as a network-path, absolute-path,
query-only, fragment-only or merged relative reference.  Dot segments are
not normalized (inputs in this development avoid them). -/
def resolveUrl (rel base : String) : Option UrlParts :=
  match parseUrl rel with
  | some u => some u
  | none =>
    match parseUrl base with
    | none => none
    | some b =>
      if leadsWith ['/', '/'] rel.toList then
        parseUrl (b.scheme ++ ":" ++ rel)
      else if (splitAtChar [':'] rel.toList).1 ≠ [] ∧
              ((splitAtChar [':'] rel.toList).1.all Char.isAlpha) ∧
              (splitAtChar [':'] rel.toList).2 ≠ [] then
        -- a scheme-prefixed reference (mailto:, data:, tel:, ...) is absolute
        -- and opaque; the constructor accepts it but validation then rejects
        -- the non-http scheme, so resolution to none gives the same
        -- convertToAbsoluteUrl outcome as the source
        none
      else
        let r := splitRef rel
        match r.1 with
        | '/' :: _ =>
          some { b with path := ⟨r.1⟩, query := ⟨r.2.1⟩, fragment := ⟨r.2.2⟩ }
        | [] =>
          if leadsWith ['#'] rel.toList then
            some { b with fragment := ⟨r.2.2⟩ }
          else if leadsWith ['?'] rel.toList then
            some { b with query := ⟨r.2.1⟩, fragment := ⟨r.2.2⟩ }
          else
            some { b with fragment := "" }
        | _ =>
          some { b with path := dirOf b.path ++ ⟨r.1⟩,
                        query := ⟨r.2.1⟩, fragment := ⟨r.2.2⟩ }

/-- convertToAbsoluteUrl from urlValidator.js: resolve, then validate the
resulting href. -/
def convertToAbsoluteUrl (rel base : String) : Option String :=
  match resolveUrl rel base with
  | none => none
  | some u => if isValidUrlFormat u.href then some u.href else none

/-- Insertion into the model of a JavaScript Set of strings: append when
absent, keeping first-insertion order. -/
def addUnique (l : List String) (x : String) : List String :=
  if l.contains x then l else l ++ [x]

/-- Does a string start with http:// or https://, the test sanitizeLinks
uses to decide whether to resolve against the base? -/
def startsHttp (s : String) : Bool :=
  leadsWith "http://".toList s.toList || leadsWith "https://".toList s.toList

/-- Per-link pipeline of sanitizeLinks: some key when the link survives
(empty links are falsy and skipped, relatives are resolved, the absolute
form is validated, and the normalized key is what gets inserted). -/
def linkKey (base link : String) : Option String :=
  if link = "" then none
  else
    let absOpt := if startsHttp link then some link else convertToAbsoluteUrl link base
    match absOpt with
    | none => none
    | some abs =>
      if isValidUrlFormat abs then normalizeUrl abs else none

/-- sanitizeLinks from urlValidator.js: fold the per-link pipeline into a
Set of normalized keys and return it as an array in insertion order. -/
def sanitizeLinks (links : List String) (base : String) : List String :=
  links.foldl (fun acc link =>
    match linkKey base link with
    | none => acc
    | some k => addUnique acc k) []

/-! ### Method detector (crawlerDetector.js)

The regular-expression and cheerio work over the HTML is abstracted into a
reading of the page: which framework patterns match the markup, which
framework names the generator meta tag mentions, how many script tags there
are and how long the visible text is.  The arithmetic of needsPuppeteer is
carried out in exact rationals. -/

inductive Framework where
  | react
  | vue
  | angular
  | nextjs
  | nuxt
deriving DecidableEq, Repr, Fintype

/-- Iteration order of FRAMEWORK_PATTERNS (and of the generator checks). -/
def frameworkOrder : List Framework :=
  [.react, .vue, .angular, .nextjs, .nuxt]

/-- Index of a framework in the iteration order. -/
def Framework.idx : Framework → Nat
  | .react => 0
  | .vue => 1
  | .angular => 2
  | .nextjs => 3
  | .nuxt => 4

/-- Abstracted reading of one HTML document: markup says whether some
pattern of each framework matches, genSays whether the generator meta tag
names it, and the two cheerio counts of analyzeContent. -/
structure PageRead where
  markup : Framework → Bool
  genSays : Framework → Bool
  scriptCount : Nat
  textLength : Nat

/-- detectFramework from crawlerDetector.js: the first framework whose
markup pattern matches wins; only when none does are the generator meta
checks consulted, in the same order. -/
def detectFramework (r : PageRead) : Option Framework :=
  match frameworkOrder.find? r.markup with
  | some f => some f
  | none => frameworkOrder.find? r.genSays

/-- Does the script-to-content ratio of analyzeContent exceed the bound?
The ratio is scripts per kilobyte of visible text (or the raw script count
when there is no text); the real-number comparison of the source is carried
out exactly by cross-multiplication. -/
def densityExceeds (r : PageRead) (bound : Nat) : Bool :=
  if r.textLength > 0 then r.scriptCount * 1000 > bound * r.textLength
  else r.scriptCount > bound

/-- Detection verdict returned by needsPuppeteer.  All signal weights of
the source are exact multiples of 0.1, so the confidence is modelled
exactly in integer tenths: 4 stands for 0.4 and 10 for the cap 1.0. -/
structure Verdict where
  needsPup : Bool
  confidence : Nat
  framework : Option Framework
deriving DecidableEq, Repr

/-- needsPuppeteer from crawlerDetector.js: the five weighted signals are
accumulated in source order, the total is capped at 1.0 (ten tenths) and
the decision is confidence strictly above 0.5 (five tenths). -/
def needsPuppeteer (r : PageRead) (linkCount : Nat) : Verdict :=
  let fw := detectFramework r
  let c1 : Nat := if fw.isSome then 4 else 0
  let c2 : Nat := c1 + (if linkCount < 5 then 3 else 0)
  let c3 : Nat := c2 + (if densityExceeds r 5 then 2 else 0)
  let c4 : Nat := c3 + (if r.textLength < 500 then 1 else 0)
  let c5 : Nat := c4 + (if r.scriptCount > 10 ∧ r.textLength < 1000 then 2 else 0)
  let conf := min c5 10
  { needsPup := decide (conf > 5), confidence := conf, framework := fw }

/-! ### Hybrid orchestrator and recursive scheduler (hybridCrawler.js,
event-emitting version)

The network and browser work of crawlWithAxios and crawlWithPuppeteer is
abstracted into oracles: axios url is the outcome of the fetch-and-parse
body of crawlWithAxios (title, extracted links, raw HTML), pup url the
outcome of the browser session body of crawlWithPuppeteer, and analyze html
the cheerio reading the detector takes of the HTML.  Event emission through
safeEmit happens only when both an emitter and a socket id are configured,
collapsed here into one sinkOn flag; emitted events and the scheduler
sleeps and crawl invocations are recorded in a trace. -/

/-- Lifecycle events, with the payload fields the claims speak about. -/
inductive Ev where
  | start (crawlType : String)
  | methodDetected (method reason : String)
  | progress (percentage pagesProcessed : Nat) (currentUrl : String)
  | depthChange (currentDepth : Nat)
  | linkFound (url : String) (linkCount : Nat)
  | errorEvent (errorType : ErrorType) (fatal : Bool)
  | complete (totalPages totalLinks : Nat) (method : Option String)
deriving DecidableEq, Repr

/-- Outcome of the fetch-and-parse body of crawlWithAxios. -/
structure AxData where
  title : String
  links : List String
  content : String

/-- Outcome of the browser session body of crawlWithPuppeteer (its links
are still unsanitized). -/
structure PupData where
  title : String
  links : List String

/-- The three external collaborators of the orchestrator. -/
structure Oracles where
  axios : String → Except JsError AxData
  pup : String → Except JsError PupData
  analyze : String → PageRead

/-- Record returned by crawlWithAxios on success. -/
structure AxResult where
  title : String
  links : List String
  url : String
  content : String
deriving Repr

/-- crawlWithAxios from crawlerAxios.js: on success the links and content
with the url field set to the normalized input url (falling back to the
input); on any failure the error is rethrown wrapped in a fresh Error whose
message names the classified type, losing code and response. -/
def crawlWithAxios (o : Oracles) (url : String) : Except JsError AxResult :=
  match o.axios url with
  | .ok d =>
    .ok { title := d.title, links := d.links,
          url := (normalizeUrl url).getD url, content := d.content }
  | .error e =>
    .error { code := none,
             message := "Failed to crawl " ++ url ++ ": " ++ (getErrorType e).name
               ++ " - " ++ e.message,
             responseStatus := none }

/-- Unified per-URL result record (the source builds ad-hoc objects; absent
fields are modelled by the empty string, the empty list and none). -/
structure PageRes where
  success : Bool
  method : String
  url : String
  title : String
  links : List String
  error : Option (ErrorType × String)
  detectionReason : String
deriving DecidableEq, Repr

/-- crawlWithPuppeteer from crawlerPuppeteer.js: it never throws; the catch
converts any failure through getDetailedErrorInfo into a success-false
record, and on success the extracted links are sanitized against the input
url and the url field is the normalized input url. -/
def crawlWithPuppeteer (o : Oracles) (url : String) : PageRes :=
  match o.pup url with
  | .ok d =>
    { success := true, method := "", url := (normalizeUrl url).getD url,
      title := d.title, links := sanitizeLinks d.links url,
      error := none, detectionReason := "" }
  | .error e =>
    let info := getDetailedErrorInfo e
    { success := false, method := "", url := (normalizeUrl url).getD url,
      title := "", links := [],
      error := some (info.type, info.userMessage), detectionReason := "" }

/-- crawlWithPuppeteerWrapper: stamps method and reason and, when an
emitter and socket were passed to it, emits one complete event whatever the
success flag. -/
def crawlWithPuppeteerWrapper (o : Oracles) (url reason : String) (sinkOn : Bool) :
    PageRes × List Ev :=
  let r := crawlWithPuppeteer o url
  ({ r with method := "puppeteer", detectionReason := reason },
   if sinkOn then [.complete 1 r.links.length (some "puppeteer")] else [])

/-- crawlWithAxiosWrapper: formats a success and, when an emitter and
socket were passed to it, emits one complete event; an axios throw
propagates. -/
def crawlWithAxiosWrapper (o : Oracles) (url reason : String) (sinkOn : Bool) :
    Except JsError (PageRes × List Ev) :=
  match crawlWithAxios o url with
  | .error e => .error e
  | .ok d =>
    .ok ({ success := true, method := "axios", url := d.url, title := d.title,
           links := d.links, error := none, detectionReason := reason },
         if sinkOn then [.complete 1 d.links.length (some "axios")] else [])

/-- Options of intelligentCrawl that the model tracks. -/
structure CrawlOpts where
  forceMethod : Option String := none
  detectionThreshold : Nat := 5
  sinkOn : Bool := false

/-- Conditional emission, the effect of safeEmit. -/
def emitIf (b : Bool) (evs : List Ev) : List Ev := if b then evs else []

/-- intelligentCrawl from hybridCrawler.js: crawl-start, then the forced
branches (whose wrapper calls omit the emitter and socket id, so those
wrappers emit nothing), then the auto path: axios first, puppeteer when
axios throws, returns no links, or the detector verdict clears the
threshold; the outer catch turns a thrown error into a success-false
result and a fatal error event.  The function returns the result together
with the events emitted on its behalf. -/
def intelligentCrawl (o : Oracles) (opts : CrawlOpts) (url : String) :
    PageRes × List Ev :=
  let startEvs := emitIf opts.sinkOn [.start "single"]
  if opts.forceMethod = some "puppeteer" then
    let r := crawlWithPuppeteerWrapper o url "forced" false
    (r.1, startEvs ++ r.2)
  else if opts.forceMethod = some "axios" then
    match crawlWithAxiosWrapper o url "forced" false with
    | .ok r => (r.1, startEvs ++ r.2)
    | .error e =>
      ({ success := false, method := "none", url := url, title := "", links := [],
         error := some (getErrorType e, e.message), detectionReason := "" },
       startEvs ++ emitIf opts.sinkOn [.errorEvent (getErrorType e) true])
  else
    let mdInit := emitIf opts.sinkOn
      [.methodDetected "axios" "Initial attempt with fast method"]
    match crawlWithAxios o url with
    | .error e0 =>
      let et := getErrorType e0
      let md := emitIf opts.sinkOn
        [.methodDetected "puppeteer" ("Axios error: " ++ et.name)]
      let r := crawlWithPuppeteerWrapper o url ("axios_error: " ++ et.name) opts.sinkOn
      (r.1, startEvs ++ mdInit ++ md ++ r.2)
    | .ok d =>
      if d.links.length = 0 then
        let md := emitIf opts.sinkOn
          [.methodDetected "puppeteer" "Axios returned no links, switching to Puppeteer"]
        let r := crawlWithPuppeteerWrapper o url "axios_failed" opts.sinkOn
        (r.1, startEvs ++ mdInit ++ md ++ r.2)
      else
        let det := needsPuppeteer (o.analyze d.content) d.links.length
        if det.needsPup ∧ det.confidence ≥ opts.detectionThreshold then
          let md := emitIf opts.sinkOn [.methodDetected "puppeteer" "detector verdict"]
          let r := crawlWithPuppeteerWrapper o url "detector verdict" opts.sinkOn
          (r.1, startEvs ++ mdInit ++ md ++ r.2)
        else
          ({ success := true, method := "axios", url := d.url, title := d.title,
             links := d.links, error := none, detectionReason := "static sufficient" },
           startEvs ++ mdInit ++
             emitIf opts.sinkOn [.complete 1 d.links.length (some "axios")])

/-- extractBaseDomain from hybridCrawler.js: protocol, separator and
hostname; none where the URL constructor throws. -/
def extractBaseDomain (url : String) : Option String :=
  (parseUrl url).map fun u => u.scheme ++ "://" ++ u.hostName

/-- isSameDomain from hybridCrawler.js: strict equality of the two
extracted base domains, where a null base compares equal only to another
null extraction. -/
def isSameDomain (url : String) (baseUrl : Option String) : Bool :=
  extractBaseDomain url == baseUrl.bind extractBaseDomain

/-! #### Recursive scheduler -/

/-- One recorded action of a recursive crawl: an emitted event, a rate
limiting sleep, or an intelligentCrawl invocation. -/
inductive Act where
  | emit (e : Ev)
  | sleep (ms : Nat)
  | invoke (url : String)
deriving DecidableEq, Repr

/-- A per-URL result stored in the session with its depth. -/
structure DepthResult where
  page : PageRes
  depth : Nat
deriving DecidableEq, Repr

/-- Options of recursiveCrawl (source defaults). -/
structure RecOpts where
  maxDepth : Nat := 3
  maxPages : Nat := 50
  childLinksPerPage : Nat := 3
  delayMs : Nat := 1500
  sameDomainOnly : Bool := true
  sinkOn : Bool := false
  forceMethod : Option String := none
  detectionThreshold : Nat := 5

/-- Mutable state of one recursive session. -/
structure RecState where
  visited : List String
  results : List DepthResult
  maxDepthReached : Nat
  currentDepthLevel : Nat
  linkEmitCounter : Nat
  trace : List Act

/-- Conditional action emission. -/
def emitActs (b : Bool) (e : Ev) : List Act := if b then [Act.emit e] else []

/-- The throttled link-found loop: the session counter advances once per
child link and every fifth value emits an event. -/
def emitLinkEvents (sinkOn : Bool) : List String → Nat → Nat × List Act
  | [], k => (k, [])
  | c :: cs, k =>
    let k1 := k + 1
    let here := if k1 % 5 = 0 then emitActs sinkOn (.linkFound c k1) else []
    let rest := emitLinkEvents sinkOn cs k1
    (rest.1, here ++ rest.2)

/-- The child loop of crawlRecursive: stop at the page cap, otherwise sleep
delayMs and recurse into the child. -/
def crawlChildren (maxPages delayMs : Nat)
    (recFn : String → RecState → RecState) : List String → RecState → RecState
  | [], st => st
  | c :: cs, st =>
    if st.visited.length ≥ maxPages then st
    else
      crawlChildren maxPages delayMs recFn cs
        (recFn c { st with trace := st.trace ++ [.sleep delayMs] })

/-- Body of one crawlRecursive call of hybridCrawler.js, parameterized by
the recursion used for the children.  Guards in source order (depth, page
cap, normalization, visited, domain scope), then the visit is recorded,
depth-change and progress are emitted, intelligentCrawl runs with no
emitter (the socket id and emitter are destructured away from the options
it receives), the result is stored, and on success below maxDepth the
filtered child links are followed after the rate-limiting sleep.  The
catch of the source is unreachable because intelligentCrawl never
throws. -/
def crawlStep (o : Oracles) (opts : RecOpts) (baseUrl : Option String)
    (recFn : String → Nat → RecState → RecState)
    (url : String) (depth : Nat) (st : RecState) : RecState :=
  if depth > opts.maxDepth then st
  else if st.visited.length ≥ opts.maxPages then st
  else
    match normalizeUrl url with
    | none => st
    | some nurl =>
      if st.visited.contains nurl then st
      else if opts.sameDomainOnly && !(isSameDomain url baseUrl) then st
      else
        let visited1 := st.visited ++ [nurl]
        let mdr := max st.maxDepthReached depth
        let cdl := if depth ≠ st.currentDepthLevel then depth else st.currentDepthLevel
        let depthActs :=
          if depth ≠ st.currentDepthLevel then emitActs opts.sinkOn (.depthChange depth)
          else []
        let pct := min 100 ((200 * visited1.length + opts.maxPages) / (2 * opts.maxPages))
        let progActs := emitActs opts.sinkOn (.progress pct visited1.length nurl)
        let inner := intelligentCrawl o
          { forceMethod := opts.forceMethod,
            detectionThreshold := opts.detectionThreshold, sinkOn := false } url
        let result := inner.1
        let stBase : RecState :=
          { visited := visited1, results := st.results ++ [⟨result, depth⟩],
            maxDepthReached := mdr, currentDepthLevel := cdl,
            linkEmitCounter := st.linkEmitCounter,
            trace := st.trace ++ depthActs ++ progActs ++ [.invoke url] }
        if result.success && depth < opts.maxDepth then
          let childLinks :=
            ((result.links.filter fun l =>
                match normalizeUrl l with
                | some n => !(visited1.contains n)
                | none => false).filter fun l =>
              !opts.sameDomainOnly || isSameDomain l baseUrl).take
              opts.childLinksPerPage
          let led := emitLinkEvents opts.sinkOn childLinks st.linkEmitCounter
          let stL := { stBase with linkEmitCounter := led.1,
                                   trace := stBase.trace ++ led.2 }
          crawlChildren opts.maxPages opts.delayMs
            (fun c s => recFn c (depth + 1) s) childLinks stL
        else stBase

/-- The inner crawlRecursive of hybridCrawler.js, recursed on fuel.  The
fuel only bounds the recursion; maxDepth + 1 steps are never exceeded
because the depth guard fires first. -/
def crawlRec (o : Oracles) (opts : RecOpts) (baseUrl : Option String) :
    Nat → String → Nat → RecState → RecState
  | 0, _, _, st => st
  | fuel + 1, url, depth, st =>
    crawlStep o opts baseUrl (crawlRec o opts baseUrl fuel) url depth st

/-- Frozen session returned by recursiveCrawl. -/
structure RecOut where
  success : Bool
  startUrl : String
  baseUrl : Option String
  totalPages : Nat
  maxDepthReached : Nat
  results : List DepthResult
  trace : List Act

/-- recursiveCrawl from hybridCrawler.js: crawl-start, the recursion from
the seed at depth zero, and one final complete event; the return object
always carries success true. -/
def recursiveCrawl (o : Oracles) (opts : RecOpts) (startUrl : String) : RecOut :=
  let baseUrl := extractBaseDomain startUrl
  let st0 : RecState :=
    { visited := [], results := [], maxDepthReached := 0, currentDepthLevel := 0,
      linkEmitCounter := 0, trace := emitActs opts.sinkOn (.start "recursive") }
  let st := crawlRec o opts baseUrl (opts.maxDepth + 1) startUrl 0 st0
  let totalLinks :=
    ((st.results.filter fun r => r.page.success).foldl
      (fun s r => s + r.page.links.length) 0)
  { success := true, startUrl := startUrl, baseUrl := baseUrl,
    totalPages := st.results.length, maxDepthReached := st.maxDepthReached,
    results := st.results,
    trace := st.trace ++
      emitActs opts.sinkOn (.complete st.results.length totalLinks none) }

/-! ### Claim-side specification functions and concrete test oracles -/

/-- Modelled from the claim wording for the dedup key: scheme://host plus
the path with the trailing slash stripped unless the path is exactly the
root slash, in which case it is kept.  Compared against normalizeUrl. -/
def normalizeKeySpec (u : UrlParts) : String :=
  u.scheme ++ "://" ++ u.host ++
    (if u.path = "/" then u.path else stripOneTrailingSlash u.path)

/-- Modelled from the claim wording for the detector: the first framework,
in fingerprint order, that a predicate accepts. -/
def specFirstMatch (p : Framework → Bool) : Option Framework :=
  if p .react then some .react
  else if p .vue then some .vue
  else if p .angular then some .angular
  else if p .nextjs then some .nextjs
  else if p .nuxt then some .nuxt
  else none

/-- Modelled from the claim wording for the detector: the clamped sum of
the triggered signal weights, listed in the order of the claim. -/
def specConfidence (r : PageRead) (linkCount : Nat) : Nat :=
  min 10 ((if (detectFramework r).isSome then 4 else 0)
    + (if linkCount < 5 then 3 else 0)
    + (if densityExceeds r 5 then 2 else 0)
    + (if r.scriptCount > 10 ∧ r.textLength < 1000 then 2 else 0)
    + (if r.textLength < 500 then 1 else 0))

/-- An absolute URL assembled from its pieces: scheme, separator,
authority, path, optional query and optional fragment.  Used to quantify
over the well-formed inputs of the URL claims. -/
def buildUrl (sch auth path : String) (q f : Option String) : String :=
  sch ++ "://" ++ auth ++ path ++
    (match q with | some qs => "?" ++ qs | none => "") ++
    (match f with | some fs => "#" ++ fs | none => "")

/-- The sleep durations recorded in a scheduler trace. -/
def sleepsOf (tr : List Act) : List Nat :=
  tr.filterMap fun a => match a with | .sleep ms => some ms | _ => none

/-- Neutral content reading: no framework signals, no scripts, ample
text. -/
def plainRead : String → PageRead := fun _ =>
  { markup := fun _ => false, genSays := fun _ => false,
    scriptCount := 0, textLength := 2000 }

/-- Oracle of a site whose every page fetches statically with one link. -/
def oracleStatic : Oracles :=
  { axios := fun _ => .ok { title := "t", links := ["http://x.test/a"], content := "h" },
    pup := fun _ => .ok { title := "p", links := [] },
    analyze := plainRead }

/-- Oracle of the rate-limit scenario: the seed page succeeds with two
child links, the first child fails on both fetchers with HTTP 429, the
second child succeeds. -/
def oracleRate : Oracles :=
  { axios := fun u =>
      if u = "http://site.test/" then
        .ok { title := "seed",
              links := ["http://site.test/a", "http://site.test/b"], content := "h" }
      else if u = "http://site.test/a" then
        .error { code := none, message := "Request failed with status code 429",
                 responseStatus := some 429 }
      else
        .ok { title := "b", links := [], content := "h" },
    pup := fun u =>
      if u = "http://site.test/a" then
        .error { code := none, message := "Request failed with status code 429",
                 responseStatus := some 429 }
      else
        .ok { title := "pb", links := [] },
    analyze := plainRead }

/-! ## Helper lemmas

Facts about the character helpers and the splitter that the URL claims
build on. -/

theorem toNat_ofNat_valid (n : Nat) (h : n < 55296) : (Char.ofNat n).toNat = n := by
  rw [Char.ofNat, dif_pos (Or.inl h)]
  simp [Char.ofNatAux, Char.toNat, UInt32.ofNat', BitVec.ofNatLt, UInt32.toNat]

theorem char_eq_of_toNat {a b : Char} (h : a.toNat = b.toNat) : a = b :=
  Char.ext (UInt32.ext h)

theorem lowerChar_toNat (c : Char) :
    (lowerChar c).toNat =
      if 65 ≤ c.toNat ∧ c.toNat ≤ 90 then c.toNat + 32 else c.toNat := by
  unfold lowerChar
  have hiff : ('A' ≤ c ∧ c ≤ 'Z') ↔ (65 ≤ c.toNat ∧ c.toNat ≤ 90) := Iff.rfl
  by_cases h : 65 ≤ c.toNat ∧ c.toNat ≤ 90
  · rw [if_pos (hiff.mpr h), if_pos h]
    exact toNat_ofNat_valid _ (by omega)
  · rw [if_neg (fun hc => h (hiff.mp hc)), if_neg h]

theorem lowerChar_idem (c : Char) : lowerChar (lowerChar c) = lowerChar c := by
  apply char_eq_of_toNat
  have h1 := lowerChar_toNat c
  have h2 := lowerChar_toNat (lowerChar c)
  rw [h2, h1]
  split_ifs <;> omega

theorem isAlpha_iff_toNat (c : Char) :
    c.isAlpha = true ↔
      (65 ≤ c.toNat ∧ c.toNat ≤ 90) ∨ (97 ≤ c.toNat ∧ c.toNat ≤ 122) := by
  constructor
  · intro h
    simp [Char.isAlpha, Char.isUpper, Char.isLower] at h
    rcases h with h | h
    · exact Or.inl ⟨h.1, h.2⟩
    · exact Or.inr ⟨h.1, h.2⟩
  · intro h
    simp [Char.isAlpha, Char.isUpper, Char.isLower]
    rcases h with h | h
    · exact Or.inl ⟨h.1, h.2⟩
    · exact Or.inr ⟨h.1, h.2⟩

theorem lowerChar_isAlpha {c : Char} (h : c.isAlpha = true) :
    (lowerChar c).isAlpha = true := by
  rw [isAlpha_iff_toNat] at h ⊢
  rw [lowerChar_toNat]
  split_ifs <;> omega

theorem lowerChar_eq_low {c s : Char} (hs : s.toNat < 65) : lowerChar c = s ↔ c = s := by
  constructor
  · intro he
    have ht := congrArg Char.toNat he
    rw [lowerChar_toNat] at ht
    split_ifs at ht with h
    · omega
    · exact char_eq_of_toNat ht
  · intro he
    subst he
    apply char_eq_of_toNat
    rw [lowerChar_toNat]
    split_ifs with h
    · omega
    · rfl

theorem list_map_lowerChar_idem (l : List Char) :
    (l.map lowerChar).map lowerChar = l.map lowerChar := by
  rw [List.map_map]
  exact List.map_congr_left fun c _ => lowerChar_idem c

theorem splitAtChar_cons_stop {stops : List Char} {c : Char}
    (h : stops.contains c = true) (cs : List Char) :
    splitAtChar stops (c :: cs) = ([], c :: cs) := by
  unfold splitAtChar
  rw [if_pos h]

theorem splitAtChar_cons_clear {stops : List Char} {c : Char}
    (h : stops.contains c = false) (cs : List Char) :
    splitAtChar stops (c :: cs) =
      (c :: (splitAtChar stops cs).1, (splitAtChar stops cs).2) := by
  conv_lhs => rw [splitAtChar]
  rw [if_neg (by rw [h]; exact Bool.false_ne_true)]

theorem splitAtChar_append {stops : List Char} {a : List Char}
    (h : ∀ c ∈ a, stops.contains c = false) (b : List Char) :
    splitAtChar stops (a ++ b) =
      (a ++ (splitAtChar stops b).1, (splitAtChar stops b).2) := by
  induction a with
  | nil => simp
  | cons c cs ih =>
    rw [List.cons_append, splitAtChar_cons_clear (h c (List.mem_cons_self c cs)),
      ih fun x hx => h x (List.mem_cons_of_mem c hx)]
    rfl

theorem splitAtChar_all_clear {stops : List Char} {l : List Char}
    (h : ∀ c ∈ l, stops.contains c = false) :
    splitAtChar stops l = (l, []) := by
  have h2 := splitAtChar_append h []
  simpa [splitAtChar] using h2

theorem splitAtChar_fst_clear (stops l : List Char) :
    ∀ c ∈ (splitAtChar stops l).1, stops.contains c = false := by
  induction l with
  | nil => intro c hc; simp [splitAtChar] at hc
  | cons x xs ih =>
    by_cases hx : stops.contains x = true
    · rw [splitAtChar_cons_stop hx]
      intro c hc
      simp at hc
    · rw [splitAtChar_cons_clear (Bool.not_eq_true _ |>.mp hx)]
      intro c hc
      rcases List.mem_cons.mp hc with rfl | hc
      · exact Bool.not_eq_true _ |>.mp hx
      · exact ih c hc

theorem splitAtChar_join (stops l : List Char) :
    (splitAtChar stops l).1 ++ (splitAtChar stops l).2 = l := by
  induction l with
  | nil => rfl
  | cons x xs ih =>
    by_cases hx : stops.contains x = true
    · rw [splitAtChar_cons_stop hx]
      rfl
    · rw [splitAtChar_cons_clear (Bool.not_eq_true _ |>.mp hx), List.cons_append, ih]

theorem toList_append (s t : String) : (s ++ t).toList = s.toList ++ t.toList := rfl

theorem splitAtChar_snd_shape (stops l : List Char) :
    (splitAtChar stops l).2 = [] ∨
      ∃ c cs, (splitAtChar stops l).2 = c :: cs ∧ stops.contains c = true := by
  induction l with
  | nil => exact Or.inl rfl
  | cons x xs ih =>
    by_cases hx : stops.contains x = true
    · exact Or.inr ⟨x, xs, by rw [splitAtChar_cons_stop hx], hx⟩
    · rw [splitAtChar_cons_clear (Bool.not_eq_true _ |>.mp hx)]
      exact ih

theorem alpha_not_colon {c : Char} (h : c.isAlpha = true) :
    ([':'] : List Char).contains c = false := by
  have hne : c ≠ ':' := fun he => by subst he; exact absurd h (by decide)
  rw [Bool.eq_false_iff]
  intro hc
  exact hne (by simpa using List.elem_iff.mp hc)

theorem lowerChar_contains_low {stops : List Char} (hst : ∀ s ∈ stops, s.toNat < 65)
    {c : Char} (h : stops.contains c = false) :
    stops.contains (lowerChar c) = false := by
  rw [Bool.eq_false_iff]
  intro hc
  have hm := List.elem_iff.mp hc
  have hcm : c ∈ stops := by
    have he := (lowerChar_eq_low (s := lowerChar c) (c := c) (hst _ hm)).mp rfl
    rw [he]
    exact hm
  rw [Bool.eq_false_iff] at h
  exact h (List.elem_iff.mpr hcm)

theorem map_lowerChar_ne_nil {l : List Char} (h : l ≠ []) : l.map lowerChar ≠ [] := by
  cases l
  · exact absurd rfl h
  · simp

theorem map_lowerChar_all_alpha {l : List Char} (h : l.all Char.isAlpha = true) :
    (l.map lowerChar).all Char.isAlpha = true := by
  rw [List.all_eq_true] at h ⊢
  intro c hc
  rcases List.mem_map.mp hc with ⟨d, hd, rfl⟩
  exact lowerChar_isAlpha (h d hd)

theorem parseUrl_shape {s : String} {u : UrlParts} (h : parseUrl s = some u) :
    (u.scheme.toList ≠ [] ∧ u.scheme.toList.all Char.isAlpha = true ∧
      lowerStr u.scheme = u.scheme) ∧
    (u.host.toList ≠ [] ∧
      (∀ c ∈ u.host.toList, (['/', '?', '#'] : List Char).contains c = false) ∧
      lowerStr u.host = u.host) ∧
    (u.path.toList.head? = some '/' ∧
      ∀ c ∈ u.path.toList, (['?', '#'] : List Char).contains c = false) := by
  have hlow : ∀ s ∈ (['/', '?', '#'] : List Char), s.toNat < 65 := by decide
  simp only [parseUrl] at h
  split at h
  case h_2 => exact absurd h (by simp)
  case h_1 x rest heq =>
    split_ifs at h with h1 h2 h3
    all_goals rw [Option.some_inj] at h
    all_goals subst h
    all_goals push_neg at h1
    all_goals refine ⟨⟨map_lowerChar_ne_nil h1.1, map_lowerChar_all_alpha h1.2,
      congrArg String.mk (list_map_lowerChar_idem _)⟩,
      ⟨map_lowerChar_ne_nil h2, ?_, congrArg String.mk (list_map_lowerChar_idem _)⟩, ?_, ?_⟩
    · intro c hc
      rcases List.mem_map.mp hc with ⟨d, hd, rfl⟩
      exact lowerChar_contains_low hlow (splitAtChar_fst_clear _ rest d hd)
    · rfl
    · intro c hc
      have hc2 : c = '/' := by simpa using (hc : c ∈ (['/'] : List Char))
      subst hc2
      decide
    · intro c hc
      rcases List.mem_map.mp hc with ⟨d, hd, rfl⟩
      exact lowerChar_contains_low hlow (splitAtChar_fst_clear _ rest d hd)
    · rcases splitAtChar_snd_shape ['/', '?', '#'] rest with hnil | ⟨c, cs, hcc, hstop⟩
      · rw [hnil] at h3
        exact absurd rfl h3
      · have hmem : c ∈ (['/', '?', '#'] : List Char) := by
          simpa using List.elem_iff.mp hstop
        simp only [List.mem_cons, List.not_mem_nil, or_false] at hmem
        rcases hmem with rfl | rfl | rfl
        · rw [hcc, splitAtChar_cons_clear (by decide)]
          rfl
        · rw [hcc, splitAtChar_cons_stop (by decide)] at h3
          exact absurd rfl h3
        · rw [hcc, splitAtChar_cons_stop (by decide)] at h3
          exact absurd rfl h3
    · intro c hc
      exact splitAtChar_fst_clear _ _ c hc

theorem parseUrl_build (sch auth path : String) (q f : Option String)
    (hs1 : sch.toList ≠ [])
    (hs2 : sch.toList.all Char.isAlpha = true)
    (ha1 : auth.toList ≠ [])
    (ha2 : ∀ c ∈ auth.toList, (['/', '?', '#'] : List Char).contains c = false)
    (hp1 : path.toList.head? = some '/')
    (hp2 : ∀ c ∈ path.toList, (['?', '#'] : List Char).contains c = false)
    (hq : ∀ qs, q = some qs → ∀ c ∈ qs.toList, (['#'] : List Char).contains c = false) :
    parseUrl (buildUrl sch auth path q f) =
      some ⟨lowerStr sch, lowerStr auth, path, q.getD "", f.getD ""⟩ := by
  have hcol : ∀ c ∈ sch.toList, ([':'] : List Char).contains c = false :=
    fun c hc => alpha_not_colon (List.all_eq_true.mp hs2 c hc)
  obtain ⟨pt, hpt⟩ : ∃ pt, path.toList = '/' :: pt := by
    cases hp : path.toList with
    | nil => rw [hp] at hp1; simp at hp1
    | cons a t =>
      rw [hp] at hp1
      simp only [List.head?_cons, Option.some_inj] at hp1
      exact ⟨t, by rw [hp1]⟩
  have hguard : ¬(sch.toList = [] ∨ ¬sch.toList.all Char.isAlpha = true) := by
    push_neg
    exact ⟨hs1, hs2⟩
  have hpne : path.toList ≠ [] := by rw [hpt]; exact List.cons_ne_nil _ _
  rcases q with _ | qs <;> rcases f with _ | fs
  · -- no query, no fragment
    have hl : (buildUrl sch auth path none none).toList
        = sch.toList ++ (':' :: '/' :: '/' :: (auth.toList ++ path.toList)) := by
      simp only [buildUrl, toList_append, List.append_assoc]
      rw [show ("://" : String).toList = [':', '/', '/'] from rfl,
        show ("" : String).toList = ([] : List Char) from rfl]
      simp
    have hsp : splitAtChar ['/', '?', '#'] path.toList = ([], path.toList) := by
      rw [hpt]
      exact splitAtChar_cons_stop (by decide) _
    simp only [parseUrl, hl]
    rw [splitAtChar_append hcol, splitAtChar_cons_stop (by decide)]
    simp only [List.append_nil]
    rw [if_neg hguard, splitAtChar_append ha2, hsp]
    simp only [List.append_nil]
    rw [if_neg ha1, splitAtChar_all_clear hp2, if_neg hpne]
    rfl
  · -- fragment only
    have hl : (buildUrl sch auth path none (some fs)).toList
        = sch.toList ++ (':' :: '/' :: '/' ::
            (auth.toList ++ (path.toList ++ '#' :: fs.toList))) := by
      simp only [buildUrl, toList_append, List.append_assoc]
      rw [show ("://" : String).toList = [':', '/', '/'] from rfl,
        show ("" : String).toList = ([] : List Char) from rfl,
        show ("#" : String).toList = ['#'] from rfl]
      simp
    have hsp : splitAtChar ['/', '?', '#'] (path.toList ++ '#' :: fs.toList) =
        ([], path.toList ++ '#' :: fs.toList) := by
      rw [hpt, List.cons_append]
      exact splitAtChar_cons_stop (by decide) _
    simp only [parseUrl, hl]
    rw [splitAtChar_append hcol, splitAtChar_cons_stop (by decide)]
    simp only [List.append_nil]
    rw [if_neg hguard, splitAtChar_append ha2, hsp]
    simp only [List.append_nil]
    rw [if_neg ha1, splitAtChar_append hp2, splitAtChar_cons_stop (by decide)]
    simp only [List.append_nil]
    rw [if_neg hpne]
    rfl
  · -- query only
    have hl : (buildUrl sch auth path (some qs) none).toList
        = sch.toList ++ (':' :: '/' :: '/' ::
            (auth.toList ++ (path.toList ++ '?' :: qs.toList))) := by
      simp only [buildUrl, toList_append, List.append_assoc]
      rw [show ("://" : String).toList = [':', '/', '/'] from rfl,
        show ("" : String).toList = ([] : List Char) from rfl,
        show ("?" : String).toList = ['?'] from rfl]
      simp
    have hsp : splitAtChar ['/', '?', '#'] (path.toList ++ '?' :: qs.toList) =
        ([], path.toList ++ '?' :: qs.toList) := by
      rw [hpt, List.cons_append]
      exact splitAtChar_cons_stop (by decide) _
    simp only [parseUrl, hl]
    rw [splitAtChar_append hcol, splitAtChar_cons_stop (by decide)]
    simp only [List.append_nil]
    rw [if_neg hguard, splitAtChar_append ha2, hsp]
    simp only [List.append_nil]
    rw [if_neg ha1, splitAtChar_append hp2, splitAtChar_cons_stop (by decide)]
    simp only [List.append_nil]
    rw [if_neg hpne, splitAtChar_all_clear (hq qs rfl)]
    rfl
  · -- query and fragment
    have hl : (buildUrl sch auth path (some qs) (some fs)).toList
        = sch.toList ++ (':' :: '/' :: '/' ::
            (auth.toList ++ (path.toList ++ '?' :: (qs.toList ++ '#' :: fs.toList)))) := by
      simp only [buildUrl, toList_append, List.append_assoc]
      rw [show ("://" : String).toList = [':', '/', '/'] from rfl,
        show ("?" : String).toList = ['?'] from rfl,
        show ("#" : String).toList = ['#'] from rfl]
      simp
    have hsp : splitAtChar ['/', '?', '#'] (path.toList ++ '?' :: (qs.toList ++ '#' :: fs.toList)) =
        ([], path.toList ++ '?' :: (qs.toList ++ '#' :: fs.toList)) := by
      rw [hpt, List.cons_append]
      exact splitAtChar_cons_stop (by decide) _
    simp only [parseUrl, hl]
    rw [splitAtChar_append hcol, splitAtChar_cons_stop (by decide)]
    simp only [List.append_nil]
    rw [if_neg hguard, splitAtChar_append ha2, hsp]
    simp only [List.append_nil]
    rw [if_neg ha1, splitAtChar_append hp2, splitAtChar_cons_stop (by decide)]
    simp only [List.append_nil]
    rw [if_neg hpne, splitAtChar_append (hq qs rfl), splitAtChar_cons_stop (by decide)]
    simp only [List.append_nil]
    rfl

theorem strip_append_slash (p : String) : stripOneTrailingSlash (p ++ "/") = p := by
  have h : (p ++ "/").toList.reverse = '/' :: p.toList.reverse := by
    rw [toList_append, show ("/" : String).toList = ['/'] from rfl]
    simp
  simp only [stripOneTrailingSlash, h]
  simp

theorem strip_no_slash {p : String} (h : p.toList.getLast? ≠ some '/') :
    stripOneTrailingSlash p = p := by
  unfold stripOneTrailingSlash
  split
  · next rest heq =>
    exfalso
    apply h
    rw [← List.head?_reverse, heq]
    rfl
  · rfl

theorem strip_toList (p : String) :
    (stripOneTrailingSlash p).toList = p.toList ∨
      (stripOneTrailingSlash p).toList = p.toList.dropLast := by
  unfold stripOneTrailingSlash
  split
  · next rest heq =>
    right
    have hp : p.toList = rest.reverse ++ ['/'] := by
      have := congrArg List.reverse heq
      simpa using this
    rw [hp, List.dropLast_concat]
    rfl
  · left
    rfl

theorem parseUrl_build_nopath (sch auth : String)
    (hs1 : sch.toList ≠ [])
    (hs2 : sch.toList.all Char.isAlpha = true)
    (ha1 : auth.toList ≠ [])
    (ha2 : ∀ c ∈ auth.toList, (['/', '?', '#'] : List Char).contains c = false) :
    parseUrl (sch ++ "://" ++ auth) = some ⟨lowerStr sch, lowerStr auth, "/", "", ""⟩ := by
  have hcol : ∀ c ∈ sch.toList, ([':'] : List Char).contains c = false :=
    fun c hc => alpha_not_colon (List.all_eq_true.mp hs2 c hc)
  have hguard : ¬(sch.toList = [] ∨ ¬sch.toList.all Char.isAlpha = true) := by
    push_neg
    exact ⟨hs1, hs2⟩
  have hl : (sch ++ "://" ++ auth).toList
      = sch.toList ++ (':' :: '/' :: '/' :: auth.toList) := by
    simp only [toList_append, List.append_assoc]
    rw [show ("://" : String).toList = [':', '/', '/'] from rfl]
    simp
  simp only [parseUrl, hl]
  rw [splitAtChar_append hcol, splitAtChar_cons_stop (by decide)]
  simp only [List.append_nil]
  rw [if_neg hguard, splitAtChar_all_clear ha2, if_neg ha1]
  rfl

theorem str_ext {a b : String} (h : a.toList = b.toList) : a = b := by
  cases a
  cases b
  cases h
  rfl

theorem path_head_cons {p : String} (hp : p.toList.head? = some '/') :
    ∃ pt, p.toList = '/' :: pt := by
  cases hl : p.toList with
  | nil => rw [hl] at hp; simp at hp
  | cons a t =>
    rw [hl] at hp
    simp only [List.head?_cons, Option.some_inj] at hp
    exact ⟨t, by rw [hp]⟩

theorem extract_of_normalized {s : String} {u : UrlParts} (h : parseUrl s = some u) :
    extractBaseDomain (u.origin ++ stripOneTrailingSlash u.path) = extractBaseDomain s := by
  obtain ⟨⟨hs1, hs2, hs3⟩, ⟨hh1, hh2, hh3⟩, hp1, hp2⟩ := parseUrl_shape h
  have hedb : extractBaseDomain s = some (u.scheme ++ "://" ++ u.hostName) := by
    simp [extractBaseDomain, h]
  by_cases hempty : (stripOneTrailingSlash u.path).toList = []
  · have hstr : stripOneTrailingSlash u.path = "" := str_ext (by simpa using hempty)
    rw [hstr, String.append_empty]
    have hb : u.origin = u.scheme ++ "://" ++ u.host := rfl
    rw [hb, extractBaseDomain, parseUrl_build_nopath u.scheme u.host hs1 hs2 hh1 hh2,
      hedb]
    simp [UrlParts.hostName, hs3, hh3]
  · have hhead : (stripOneTrailingSlash u.path).toList.head? = some '/' := by
      rcases strip_toList u.path with he | he <;> rw [he] at hempty ⊢
      · exact hp1
      · obtain ⟨pt, hpt⟩ := path_head_cons hp1
        cases pt with
        | nil => rw [hpt] at hempty; simp at hempty
        | cons x xs => rw [hpt]; rfl
    have hchars : ∀ c ∈ (stripOneTrailingSlash u.path).toList,
        (['?', '#'] : List Char).contains c = false := by
      rcases strip_toList u.path with he | he <;> rw [he]
      · exact hp2
      · intro c hc
        exact hp2 c ((List.dropLast_sublist u.path.toList).subset hc)
    have hb : u.origin ++ stripOneTrailingSlash u.path
        = buildUrl u.scheme u.host (stripOneTrailingSlash u.path) none none := by
      simp [buildUrl, UrlParts.origin, String.append_assoc, String.append_empty]
    rw [hb, extractBaseDomain,
      parseUrl_build u.scheme u.host (stripOneTrailingSlash u.path) none none
        hs1 hs2 hh1 hh2 hhead hchars (fun qs hqs => nomatch hqs),
      hedb]
    simp [UrlParts.hostName, hs3, hh3]

theorem map_eq_self_mem {f : Char → Char} {l : List Char} (h : l.map f = l) :
    ∀ c ∈ l, f c = c := by
  induction l with
  | nil => intro c hc; simp at hc
  | cons a t ih =>
    rw [List.map_cons] at h
    injection h with h1 h2
    intro c hc
    rcases List.mem_cons.mp hc with rfl | hc
    · exact h1
    · exact ih h2 c hc

theorem map_self_of_mem {f : Char → Char} {l : List Char} (h : ∀ c ∈ l, f c = c) :
    l.map f = l := by
  induction l with
  | nil => rfl
  | cons a t ih =>
    rw [List.map_cons, h a (List.mem_cons_self a t),
      ih fun c hc => h c (List.mem_cons_of_mem a hc)]

theorem parse_empty_auth {sch : String}
    (hc : ∀ c ∈ sch.toList, ([':'] : List Char).contains c = false) :
    parseUrl (sch ++ "://") = none := by
  have hl : (sch ++ "://").toList = sch.toList ++ [':', '/', '/'] := rfl
  simp only [parseUrl, hl]
  rw [show ([':', '/', '/'] : List Char) = ':' :: '/' :: '/' :: [] from rfl,
    splitAtChar_append hc, splitAtChar_cons_stop (by decide)]
  simp only [List.append_nil]
  split_ifs with h1 h2
  · rfl
  · rfl
  · exact absurd rfl h2

theorem scheme_host_inj {s1 h1 s2 h2 : String}
    (hc1 : ∀ c ∈ s1.toList, ([':'] : List Char).contains c = false)
    (hc2 : ∀ c ∈ s2.toList, ([':'] : List Char).contains c = false)
    (h : s1 ++ "://" ++ h1 = s2 ++ "://" ++ h2) :
    s1 = s2 ∧ h1 = h2 := by
  have hl : s1.toList ++ (':' :: '/' :: '/' :: h1.toList)
      = s2.toList ++ (':' :: '/' :: '/' :: h2.toList) := by
    have h0 := congrArg String.toList h
    simpa [toList_append, List.append_assoc] using h0
  have hsp := congrArg (splitAtChar [':']) hl
  rw [splitAtChar_append hc1, splitAtChar_append hc2,
    splitAtChar_cons_stop (by decide), splitAtChar_cons_stop (by decide)] at hsp
  simp only [List.append_nil, Prod.mk.injEq] at hsp
  obtain ⟨e1, e2⟩ := hsp
  refine ⟨str_ext e1, str_ext ?_⟩
  injection e2 with _ e2
  injection e2 with _ e2
  injection e2 with _ e2

theorem pupWrapper_url (o : Oracles) (url reason : String) (b : Bool) :
    (crawlWithPuppeteerWrapper o url reason b).1.url = (normalizeUrl url).getD url := by
  unfold crawlWithPuppeteerWrapper crawlWithPuppeteer
  cases o.pup url <;> rfl

theorem crawlWithAxios_url {o : Oracles} {url : String} {d : AxResult}
    (h : crawlWithAxios o url = .ok d) : d.url = (normalizeUrl url).getD url := by
  unfold crawlWithAxios at h
  cases ha : o.axios url with
  | ok a => rw [ha, Except.ok.injEq] at h; rw [← h]
  | error e => rw [ha] at h; exact absurd h (by simp)

theorem intelligentCrawl_url (o : Oracles) (opts : CrawlOpts) (url : String) :
    (intelligentCrawl o opts url).1.url = url ∨
    (intelligentCrawl o opts url).1.url = (normalizeUrl url).getD url := by
  unfold intelligentCrawl
  split
  · exact Or.inr (pupWrapper_url o url "forced" false)
  · split
    · cases ha : crawlWithAxiosWrapper o url "forced" false with
      | ok r =>
        unfold crawlWithAxiosWrapper at ha
        cases ha2 : crawlWithAxios o url with
        | ok d =>
          rw [ha2, Except.ok.injEq] at ha
          right
          rw [← ha]
          exact crawlWithAxios_url ha2
        | error e => rw [ha2] at ha; exact absurd ha (by simp)
      | error e => exact Or.inl rfl
    · split
      · exact Or.inr (pupWrapper_url o url _ opts.sinkOn)
      · next d heq =>
        split
        · exact Or.inr (pupWrapper_url o url _ opts.sinkOn)
        · dsimp only
          split
          · exact Or.inr (pupWrapper_url o url _ opts.sinkOn)
          · exact Or.inr (crawlWithAxios_url heq)


theorem hostName_facts {s : String} {u : UrlParts} (h : parseUrl s = some u) :
    (∀ c ∈ u.hostName.toList, ([':'] : List Char).contains c = false) ∧
    (∀ c ∈ u.hostName.toList, (['/', '?', '#'] : List Char).contains c = false) ∧
    lowerStr u.hostName = u.hostName := by
  obtain ⟨-, ⟨-, hh2, hh3⟩, -⟩ := parseUrl_shape h
  have hmem : ∀ c ∈ u.hostName.toList, c ∈ u.host.toList := by
    intro c hc
    have hj := splitAtChar_join [':'] u.host.toList
    rw [← hj]
    exact List.mem_append_left _ hc
  have hfix : ∀ c ∈ u.host.toList, lowerChar c = c :=
    map_eq_self_mem (show u.host.toList.map lowerChar = u.host.toList from
      congrArg String.toList hh3)
  refine ⟨?_, ?_, ?_⟩
  · exact fun c hc => splitAtChar_fst_clear [':'] u.host.toList c hc
  · exact fun c hc => hh2 c (hmem c hc)
  · exact str_ext (map_self_of_mem fun c hc => hfix c (hmem c hc))

theorem extract_extract {s b : String} (h : extractBaseDomain s = some b) :
    extractBaseDomain b = some b ∨ extractBaseDomain b = none := by
  unfold extractBaseDomain at h
  cases hp : parseUrl s with
  | none => rw [hp] at h; simp at h
  | some u =>
    rw [hp] at h
    simp only [Option.map_some'] at h
    rw [Option.some_inj] at h
    obtain ⟨⟨hs1, hs2, hs3⟩, -, -⟩ := parseUrl_shape hp
    obtain ⟨hn1, hn2, hn3⟩ := hostName_facts hp
    have hcol : ∀ c ∈ u.scheme.toList, ([':'] : List Char).contains c = false :=
      fun c hc => alpha_not_colon (List.all_eq_true.mp hs2 c hc)
    subst h
    by_cases hne : u.hostName.toList = []
    · right
      have he : u.hostName = "" := str_ext (by simpa using hne)
      rw [he, String.append_empty]
      unfold extractBaseDomain
      rw [parse_empty_auth hcol]
      rfl
    · left
      unfold extractBaseDomain
      rw [parseUrl_build_nopath u.scheme u.hostName hs1 hs2 hne hn2]
      have hkey : (⟨(splitAtChar [':'] (lowerStr u.hostName).toList).1⟩ : String)
          = u.hostName := by
        rw [hn3, splitAtChar_all_clear hn1]
        rfl
      simp only [Option.map_some', Option.some_inj]
      show lowerStr u.scheme ++ "://" ++
          (⟨(splitAtChar [':'] (lowerStr u.hostName).toList).1⟩ : String)
        = u.scheme ++ "://" ++ u.hostName
      rw [hkey, hs3]

theorem crawlChildren_results {Q : DepthResult → Prop} {mp d : Nat}
    {recFn : String → RecState → RecState}
    (hrec : ∀ c s, (∀ r ∈ s.results, Q r) → ∀ r ∈ (recFn c s).results, Q r) :
    ∀ l st, (∀ r ∈ st.results, Q r) →
      ∀ r ∈ (crawlChildren mp d recFn l st).results, Q r := by
  intro l
  induction l with
  | nil => intro st h; simpa [crawlChildren] using h
  | cons c cs ih =>
    intro st h
    unfold crawlChildren
    split_ifs with hcap
    · exact h
    · exact ih _ (hrec c _ h)

theorem crawlRec_results_inv (o : Oracles) (opts : RecOpts) (B : Option String)
    (Q : DepthResult → Prop)
    (hnew : ∀ url depth nurl, normalizeUrl url = some nurl →
      ¬((opts.sameDomainOnly && !(isSameDomain url B)) = true) →
      Q ⟨(intelligentCrawl o
        { forceMethod := opts.forceMethod,
          detectionThreshold := opts.detectionThreshold, sinkOn := false } url).1, depth⟩) :
    ∀ fuel url depth st, (∀ r ∈ st.results, Q r) →
      ∀ r ∈ (crawlRec o opts B fuel url depth st).results, Q r := by
  intro fuel
  induction fuel with
  | zero => intro url depth st h; exact h
  | succ n ih =>
    intro url depth st h
    unfold crawlRec crawlStep
    by_cases h1 : depth > opts.maxDepth
    · rw [if_pos h1]; exact h
    rw [if_neg h1]
    by_cases h2 : st.visited.length ≥ opts.maxPages
    · rw [if_pos h2]; exact h
    rw [if_neg h2]
    split
    · exact h
    · next nurl heq =>
      by_cases h3 : st.visited.contains nurl = true
      · rw [if_pos h3]; exact h
      rw [if_neg h3]
      by_cases h4 : (opts.sameDomainOnly && !(isSameDomain url B)) = true
      · rw [if_pos h4]; exact h
      rw [if_neg h4]
      dsimp only
      split_ifs with h5 h6 h7
      all_goals first
        | (intro r hr
           rcases List.mem_append.mp hr with hold | hnew2
           · exact h r hold
           · rw [List.mem_singleton] at hnew2
             subst hnew2
             exact hnew _ depth nurl heq h4)
        | (apply crawlChildren_results (fun c s hs => ih c (depth + 1) s hs)
           intro r hr
           rcases List.mem_append.mp hr with hold | hnew2
           · exact h r hold
           · rw [List.mem_singleton] at hnew2
             subst hnew2
             exact hnew _ depth nurl heq h4)

theorem no_sleep_emitActs (b : Bool) (e : Ev) : ∀ ms, Act.sleep ms ∉ emitActs b e := by
  intro ms
  unfold emitActs
  split <;> simp

theorem no_sleep_append {X Y : List Act} (hx : ∀ ms, Act.sleep ms ∉ X)
    (hy : ∀ ms, Act.sleep ms ∉ Y) : ∀ ms, Act.sleep ms ∉ X ++ Y := by
  intro ms hm
  rcases List.mem_append.mp hm with hm | hm
  · exact hx ms hm
  · exact hy ms hm

theorem no_sleep_ite {P : Prop} [Decidable P] {X Y : List Act}
    (hx : ∀ ms, Act.sleep ms ∉ X) (hy : ∀ ms, Act.sleep ms ∉ Y) :
    ∀ ms, Act.sleep ms ∉ (if P then X else Y) := by
  split_ifs
  · exact hx
  · exact hy

theorem no_sleep_linkEvents (b : Bool) :
    ∀ l k ms, Act.sleep ms ∉ (emitLinkEvents b l k).2 := by
  intro l
  induction l with
  | nil => intro k ms; simp [emitLinkEvents]
  | cons c cs ih =>
    intro k ms
    unfold emitLinkEvents
    dsimp only
    refine no_sleep_append (X := if (k + 1) % 5 = 0 then emitActs b (.linkFound c (k + 1)) else [])
      ?_ (fun ms2 => ih (k + 1) ms2) ms
    exact no_sleep_ite (no_sleep_emitActs b _) (by simp)

theorem sleeps_mono {D : Nat} {T X : List Act}
    (h : ∀ ms, Act.sleep ms ∈ T → ms = D)
    (hx : ∀ ms, Act.sleep ms ∉ X) :
    ∀ ms, Act.sleep ms ∈ T ++ X → ms = D := by
  intro ms hm
  rcases List.mem_append.mp hm with hm | hm
  · exact h ms hm
  · exact absurd hm (hx ms)

theorem crawlChildren_sleeps {D mp : Nat} {recFn : String → RecState → RecState}
    (hrec : ∀ c s, (∀ ms, Act.sleep ms ∈ s.trace → ms = D) →
      ∀ ms, Act.sleep ms ∈ (recFn c s).trace → ms = D) :
    ∀ l st, (∀ ms, Act.sleep ms ∈ st.trace → ms = D) →
      ∀ ms, Act.sleep ms ∈ (crawlChildren mp D recFn l st).trace → ms = D := by
  intro l
  induction l with
  | nil => intro st h; simpa [crawlChildren] using h
  | cons c cs ih =>
    intro st h
    unfold crawlChildren
    split_ifs with hcap
    · exact h
    · refine ih _ (hrec c _ ?_)
      intro ms hm
      rcases List.mem_append.mp hm with hm | hm
      · exact h ms hm
      · simpa using hm

theorem crawlRec_sleeps_inv (o : Oracles) (opts : RecOpts) (B : Option String) :
    ∀ fuel url depth st, (∀ ms, Act.sleep ms ∈ st.trace → ms = opts.delayMs) →
      ∀ ms, Act.sleep ms ∈ (crawlRec o opts B fuel url depth st).trace → ms = opts.delayMs := by
  intro fuel
  induction fuel with
  | zero => intro url depth st h; exact h
  | succ n ih =>
    intro url depth st h
    unfold crawlRec crawlStep
    by_cases h1 : depth > opts.maxDepth
    · rw [if_pos h1]; exact h
    rw [if_neg h1]
    by_cases h2 : st.visited.length ≥ opts.maxPages
    · rw [if_pos h2]; exact h
    rw [if_neg h2]
    split
    · exact h
    · next nurl heq =>
      by_cases h3 : st.visited.contains nurl = true
      · rw [if_pos h3]; exact h
      rw [if_neg h3]
      by_cases h4 : (opts.sameDomainOnly && !(isSameDomain url B)) = true
      · rw [if_pos h4]; exact h
      rw [if_neg h4]
      dsimp only
      have hstep : ∀ X : List Act, (∀ ms, Act.sleep ms ∉ X) →
          ∀ ms, Act.sleep ms ∈ st.trace ++ X → ms = opts.delayMs :=
        fun X hX => sleeps_mono h hX
      split
      · -- children branch
        apply crawlChildren_sleeps (fun c s hs => ih c (depth + 1) s hs)
        simp only [List.append_assoc]
        refine hstep _ ?_
        refine no_sleep_append (no_sleep_ite (no_sleep_emitActs _ _) (by simp)) ?_
        refine no_sleep_append (no_sleep_emitActs _ _) ?_
        refine no_sleep_append (by intro ms; simp) ?_
        exact no_sleep_linkEvents _ _ _
      · -- base branch
        simp only [List.append_assoc]
        refine hstep _ ?_
        refine no_sleep_append (no_sleep_ite (no_sleep_emitActs _ _) (by simp)) ?_
        refine no_sleep_append (no_sleep_emitActs _ _) (by intro ms; simp)


/-! ## Further helper lemmas for the claim theorems -/

theorem extractBaseDomain_parse {s : String} {u : UrlParts} (h : parseUrl s = some u) :
    extractBaseDomain s = some (u.scheme ++ "://" ++ u.hostName) := by
  unfold extractBaseDomain
  rw [h]
  rfl

theorem addUnique_nodup {l : List String} {x : String} (h : l.Nodup) :
    (addUnique l x).Nodup := by
  unfold addUnique
  split_ifs with hc
  · exact h
  · have hx : x ∉ l := fun hmem => hc (List.elem_iff.mpr hmem)
    simp [List.nodup_append, h, hx]

theorem addUnique_mem {l : List String} {x k : String} :
    k ∈ addUnique l x ↔ k ∈ l ∨ k = x := by
  unfold addUnique
  split_ifs with hc
  · constructor
    · exact Or.inl
    · rintro (h | rfl)
      · exact h
      · exact List.elem_iff.mp hc
  · simp [List.mem_append]

theorem sanitize_fold_nodup (base : String) :
    ∀ (links acc : List String), acc.Nodup →
      (links.foldl (fun acc link =>
        match linkKey base link with
        | none => acc
        | some k => addUnique acc k) acc).Nodup := by
  intro links
  induction links with
  | nil => intro acc h; simpa using h
  | cons l ls ih =>
    intro acc h
    rw [List.foldl_cons]
    apply ih
    cases hl : linkKey base l with
    | none => simpa [hl] using h
    | some k2 =>
      simp only [hl]
      exact addUnique_nodup h

theorem sanitize_fold_mem (base : String) :
    ∀ (links acc : List String) (k : String),
      (k ∈ links.foldl (fun acc link =>
        match linkKey base link with
        | none => acc
        | some k2 => addUnique acc k2) acc ↔
      k ∈ acc ∨ ∃ link ∈ links, linkKey base link = some k) := by
  intro links
  induction links with
  | nil => intro acc k; simp
  | cons l ls ih =>
    intro acc k
    rw [List.foldl_cons, ih]
    cases hl : linkKey base l with
    | none =>
      simp only [hl, List.mem_cons]
      constructor
      · rintro (h | ⟨link, hlk, hk⟩)
        · exact Or.inl h
        · exact Or.inr ⟨link, Or.inr hlk, hk⟩
      · rintro (h | ⟨link, rfl | hlk, hk⟩)
        · exact Or.inl h
        · rw [hl] at hk
          simp at hk
        · exact Or.inr ⟨link, hlk, hk⟩
    | some k2 =>
      simp only [hl, addUnique_mem, List.mem_cons]
      constructor
      · rintro ((h | rfl) | ⟨link, hlk, hk⟩)
        · exact Or.inl h
        · exact Or.inr ⟨l, Or.inl rfl, hl⟩
        · exact Or.inr ⟨link, Or.inr hlk, hk⟩
      · rintro (h | ⟨link, rfl | hlk, hk⟩)
        · exact Or.inl (Or.inl h)
        · rw [hl] at hk
          injection hk with hk
          exact Or.inl (Or.inr hk.symm)
        · exact Or.inr ⟨link, hlk, hk⟩

theorem find_eq_specFirstMatch (p : Framework → Bool) :
    frameworkOrder.find? p = specFirstMatch p := by
  unfold frameworkOrder specFirstMatch
  cases h1 : p .react <;> cases h2 : p .vue <;> cases h3 : p .angular <;>
    cases h4 : p .nextjs <;> cases h5 : p .nuxt <;>
      simp [List.find?, h1, h2, h3, h4, h5]

theorem pupWrapper_cases (o : Oracles) (url reason : String) (b : Bool) :
    (crawlWithPuppeteerWrapper o url reason b).1.success = true ∨
    ((crawlWithPuppeteerWrapper o url reason b).1.success = false ∧
      ∃ t m, (crawlWithPuppeteerWrapper o url reason b).1.error = some (t, m)) := by
  unfold crawlWithPuppeteerWrapper crawlWithPuppeteer
  cases o.pup url with
  | ok d => left; rfl
  | error e => right; exact ⟨rfl, _, _, rfl⟩


/-! ## Claim theorems -/

/-- Claim C1, counterexample: a Strict attempt failing with code
CERT_HAS_EXPIRED is classified SSL_CERT_EXPIRED, an SSL-family kind, yet
fetchWithRetry performs no Legacy attempt at all: the error is thrown
after the single Strict attempt, because the legacy fallback of the source
fires only on the kind SSL_ERROR and shouldNotRetry stops the retries. -/
theorem C1_cert_expired_no_legacy :
    getErrorType ⟨some "CERT_HAS_EXPIRED", "x", none⟩ = ErrorType.SSL_CERT_EXPIRED ∧
    fetchWithRetry (fun _ => .error ⟨some "CERT_HAS_EXPIRED", "x", none⟩)
        (.ok ⟨200, "ok"⟩) 2
      = some (.error ⟨some "CERT_HAS_EXPIRED", "x", none⟩, [.secureAttempt 1]) ∧
    FetchStep.legacyAttempt ∉ [FetchStep.secureAttempt 1] := by decide

/-- Claim C1, amended: the Legacy fallback of the Static Fetcher fires
exactly on the error kind SSL_ERROR.  When the Strict attempt fails with an
error the classifier calls SSL_ERROR, exactly one Legacy attempt is made
and its outcome (success or error) is returned with no further Strict
retries; when no attempt ever fails with kind SSL_ERROR, no Legacy attempt
occurs anywhere in the loop (the three certificate kinds SSL_CERT_EXPIRED,
SSL_CERT_INVALID and SSL_SELF_SIGNED do not trigger the fallback). -/
theorem C1_legacy_fallback_scope (secure : Nat → Except JsError HttpResponse)
    (legacy : Except JsError HttpResponse) (attempt remaining : Nat) :
    (∀ e, secure attempt = .error e → getErrorType e = .SSL_ERROR →
      fetchLoop secure legacy attempt remaining
        = (legacy, [.secureAttempt attempt, .legacyAttempt])) ∧
    ((∀ n e, secure n = .error e → getErrorType e ≠ .SSL_ERROR) →
      FetchStep.legacyAttempt ∉ (fetchLoop secure legacy attempt remaining).2) := by
  constructor
  · intro e hatt hssl
    rw [fetchLoop.eq_def]
    dsimp only
    rw [hatt]
    dsimp only
    rw [if_pos hssl]
  · intro hne
    induction remaining generalizing attempt with
    | zero =>
      rw [fetchLoop.eq_def]
      dsimp only
      cases hs : secure attempt with
      | ok resp => simp
      | error e =>
        dsimp only
        rw [if_neg (hne attempt e hs)]
        simp
    | succ r ih =>
      rw [fetchLoop.eq_def]
      dsimp only
      cases hs : secure attempt with
      | ok resp => simp
      | error e =>
        dsimp only
        rw [if_neg (hne attempt e hs)]
        by_cases hr : shouldNotRetry e = true
        · rw [if_pos hr]
          simp
        · rw [if_neg hr]
          dsimp only
          intro hm
          simp only [List.mem_cons] at hm
          rcases hm with h1 | h1 | h1
          · exact absurd h1 (by simp)
          · exact absurd h1 (by simp)
          · exact ih (attempt + 1) h1

/-- Claim C2: a single-page crawl with forceMethod set and a configured
event sink emits only the crawl-start event: no crawl-complete follows,
because the forced branches call the method wrappers without passing the
emitter and socket id.  The auto path of the same crawl does end with one
complete event, isolating the defect to the forced branches. -/
theorem C2_forced_crawl_drops_complete :
    (intelligentCrawl oracleStatic
      { forceMethod := some "puppeteer", sinkOn := true } "http://x.test/").2
      = [Ev.start "single"] ∧
    (intelligentCrawl oracleStatic
      { forceMethod := some "axios", sinkOn := true } "http://x.test/").2
      = [Ev.start "single"] ∧
    (intelligentCrawl oracleStatic { sinkOn := true } "http://x.test/").2
      = [Ev.start "single",
         Ev.methodDetected "axios" "Initial attempt with fast method",
         Ev.complete 1 1 (some "axios")] := by decide

/-- Claim C3, counterexample: in the rate-limit scenario the first child
fails with kind RATE_LIMITED, yet the sleep before the next invocation is
still the base 1500 ms - the scheduler never doubles delayMs. -/
theorem C3_rate_limited_no_backoff :
    sleepsOf (recursiveCrawl oracleRate {} "http://site.test/").trace = [1500, 1500] ∧
    ((recursiveCrawl oracleRate {} "http://site.test/").results.map
        fun r => (r.page.success, r.page.error.map Prod.fst))
      = [(true, none), (false, some ErrorType.RATE_LIMITED), (true, none)] := by decide

/-- Claim C3, amended: every sleep the Scheduler ever records in a
recursive session lasts exactly opts.delayMs; there is no backoff of any
kind, whatever the oracles return. -/
theorem C3_delay_always_delayMs (o : Oracles) (opts : RecOpts) (startUrl : String) :
    ∀ ms, Act.sleep ms ∈ (recursiveCrawl o opts startUrl).trace → ms = opts.delayMs := by
  intro ms hm
  unfold recursiveCrawl at hm
  dsimp only at hm
  refine sleeps_mono ?_ (no_sleep_emitActs _ _) ms hm
  exact crawlRec_sleeps_inv o opts _ (opts.maxDepth + 1) startUrl 0 _
    (fun ms2 hm2 => absurd hm2 (no_sleep_emitActs _ _ ms2))

/-- Concrete instance of C3_delay_always_delayMs: the rate-limit scenario
records a 1500 ms sleep, and 1500 is the default delayMs. -/
theorem C3_delay_always_delayMs_witness :
    Act.sleep 1500 ∈ (recursiveCrawl oracleRate {} "http://site.test/").trace ∧
    1500 = ({} : RecOpts).delayMs :=
  ⟨by decide, C3_delay_always_delayMs oracleRate {} "http://site.test/" 1500 (by decide)⟩


/-- Claim C4, counterexample: for the root URL the path is exactly the
root slash, yet normalizeUrl strips it too - the key is scheme://host with
an empty path, where the claimed key function keeps the slash. -/
theorem C4_root_slash_stripped :
    parseUrl "http://x.test/" = some ⟨"http", "x.test", "/", "", ""⟩ ∧
    normalizeUrl "http://x.test/" = some "http://x.test" ∧
    normalizeKeySpec ⟨"http", "x.test", "/", "", ""⟩ = "http://x.test/" ∧
    normalizeUrl "http://x.test/"
      ≠ some (normalizeKeySpec ⟨"http", "x.test", "/", "", ""⟩) := by decide

/-- Claim C4, amended: for every well-formed absolute URL the normalized
dedup key is scheme://host plus the path with one trailing slash removed -
with no root-path exception - scheme and host lower-cased by the parser,
and the query and fragment dropped from the key; consequently two URLs
differing only in query, fragment or one trailing slash map to the same
key. -/
theorem C4_normalized_key_shape (sch auth path : String) (q f : Option String)
    (hs1 : sch.toList ≠ [])
    (hs2 : sch.toList.all Char.isAlpha = true)
    (ha1 : auth.toList ≠ [])
    (ha2 : ∀ c ∈ auth.toList, (['/', '?', '#'] : List Char).contains c = false)
    (hp1 : path.toList.head? = some '/')
    (hp2 : ∀ c ∈ path.toList, (['?', '#'] : List Char).contains c = false)
    (hq : ∀ c ∈ (q.getD "").toList, (['#'] : List Char).contains c = false) :
    normalizeUrl (buildUrl sch auth path q f)
      = some (lowerStr sch ++ "://" ++ lowerStr auth ++ stripOneTrailingSlash path) ∧
    normalizeUrl (buildUrl sch auth path q f)
      = normalizeUrl (buildUrl sch auth path none none) ∧
    (path.toList.getLast? ≠ some '/' →
      normalizeUrl (buildUrl sch auth (path ++ "/") q f)
        = normalizeUrl (buildUrl sch auth path q f)) := by
  have hq2 : ∀ qs, q = some qs → ∀ c ∈ qs.toList,
      (['#'] : List Char).contains c = false := by
    intro qs hqs
    subst hqs
    exact hq
  have h1 := parseUrl_build sch auth path q f hs1 hs2 ha1 ha2 hp1 hp2 hq2
  have h0 := parseUrl_build sch auth path none none hs1 hs2 ha1 ha2 hp1 hp2
    (fun qs hqs => by cases hqs)
  refine ⟨?_, ?_, ?_⟩
  · unfold normalizeUrl
    rw [h1]
    rfl
  · unfold normalizeUrl
    rw [h1, h0]
    rfl
  · intro hlast
    obtain ⟨pt, hpt⟩ := path_head_cons hp1
    have hp1b : (path ++ "/").toList.head? = some '/' := by
      rw [toList_append, hpt]
      rfl
    have hp2b : ∀ c ∈ (path ++ "/").toList,
        (['?', '#'] : List Char).contains c = false := by
      intro c hc
      rw [toList_append] at hc
      rcases List.mem_append.mp hc with hc | hc
      · exact hp2 c hc
      · have hc2 : c = '/' := by simpa using hc
        subst hc2
        decide
    have h2 := parseUrl_build sch auth (path ++ "/") q f hs1 hs2 ha1 ha2 hp1b hp2b hq2
    unfold normalizeUrl
    rw [h1, h2]
    dsimp only
    rw [strip_append_slash, strip_no_slash hlast]
    rfl

/-- Concrete instance of C4_normalized_key_shape at a mixed-case authority
with a query and a fragment. -/
theorem C4_normalized_key_shape_witness :
    (normalizeUrl (buildUrl "http" "X.test" "/p" (some "a=1") (some "z"))
      = some (lowerStr "http" ++ "://" ++ lowerStr "X.test"
          ++ stripOneTrailingSlash "/p")) ∧
    (normalizeUrl (buildUrl "http" "X.test" "/p" (some "a=1") (some "z"))
      = normalizeUrl (buildUrl "http" "X.test" "/p" none none)) ∧
    (("/p" : String).toList.getLast? ≠ some '/' →
      normalizeUrl (buildUrl "http" "X.test" ("/p" ++ "/") (some "a=1") (some "z"))
        = normalizeUrl (buildUrl "http" "X.test" "/p" (some "a=1") (some "z"))) :=
  C4_normalized_key_shape "http" "X.test" "/p" (some "a=1") (some "z")
    (by decide) (by decide) (by decide) (by decide) (by decide) (by decide) (by decide)

/-- Claim C5, counterexample: a link with a query string survives
sanitizeLinks, but the entry the Set retains is the normalized key itself,
query stripped - the first-seen absolute form with its query is not
preserved in the returned collection. -/
theorem C5_query_stripped_from_entry :
    sanitizeLinks ["http://x.test/p?a=1"] "http://x.test/" = ["http://x.test/p"] ∧
    "http://x.test/p?a=1" ∉ sanitizeLinks ["http://x.test/p?a=1"] "http://x.test/" := by
  decide

/-- Claim C5, amended: sanitizeLinks returns the normalized keys of the
surviving links in first-seen order with no duplicate key: a key is in the
output exactly when some input link resolves, validates and normalizes to
it (linkKey is the per-link pipeline: empty links dropped, relatives
resolved against the base, the absolute form validated against the
malicious-scheme filter, then normalized).  The retained entry is the key,
not the original absolute form. -/
theorem C5_sanitize_dedup (links : List String) (base : String) :
    (sanitizeLinks links base).Nodup ∧
    ∀ k, k ∈ sanitizeLinks links base ↔ ∃ link ∈ links, linkKey base link = some k := by
  constructor
  · exact sanitize_fold_nodup base links [] List.nodup_nil
  · intro k
    unfold sanitizeLinks
    rw [sanitize_fold_mem]
    simp

/-- Claim C6, counterexample: an HTTP 402 response is a 4xx status other
than 408 and 429, yet shouldNotRetry returns false for it - the code
retries it, against the claimed policy. -/
theorem C6_http_402_retried :
    getErrorType ⟨none, "x", some 402⟩ = ErrorType.HTTP_ERROR 402 ∧
    shouldNotRetry ⟨none, "x", some 402⟩ = false := by decide

/-- Claim C6, amended: shouldNotRetry holds exactly when the error code is
one of ENOTFOUND, ERR_INVALID_URL, CERT_HAS_EXPIRED, ECONNREFUSED, or the
response status is one of 400, 401, 403, 404, 410 - a fixed status list,
not all of 4xx minus 408 and 429 - and this is the predicate the retry
loop consults on a retryable-kind failure with attempts left. -/
theorem C6_retry_policy (e : JsError) :
    (shouldNotRetry e = true ↔
      (e.code = some "ENOTFOUND" ∨ e.code = some "ERR_INVALID_URL" ∨
       e.code = some "CERT_HAS_EXPIRED" ∨ e.code = some "ECONNREFUSED") ∨
      (e.responseStatus = some 400 ∨ e.responseStatus = some 401 ∨
       e.responseStatus = some 403 ∨ e.responseStatus = some 404 ∨
       e.responseStatus = some 410)) ∧
    (∀ (secure : Nat → Except JsError HttpResponse)
       (legacy : Except JsError HttpResponse) (attempt r : Nat),
      secure attempt = .error e → getErrorType e ≠ .SSL_ERROR →
      fetchLoop secure legacy attempt (r + 1)
        = if shouldNotRetry e then (.error e, [.secureAttempt attempt])
          else ((fetchLoop secure legacy (attempt + 1) r).1,
            .secureAttempt attempt :: .backoff (1500 * attempt)
              :: (fetchLoop secure legacy (attempt + 1) r).2)) := by
  constructor
  · unfold shouldNotRetry
    rcases e with ⟨c, m, s⟩
    dsimp only
    cases c <;> cases s <;>
      simp [List.elem_iff, or_assoc]
  · intro secure legacy attempt r hs hne
    rw [fetchLoop.eq_def]
    dsimp only
    rw [hs]
    dsimp only
    rw [if_neg hne]


/-- Claim C7, counterexample: two URLs with the same host but different
schemes are not same-domain - isSameDomain compares protocol://hostname
strings, so the comparison does not depend on the hosts only. -/
theorem C7_scheme_mismatch_excluded :
    (parseUrl "http://x.test/").map UrlParts.hostName = some "x.test" ∧
    (parseUrl "https://x.test/").map UrlParts.hostName = some "x.test" ∧
    isSameDomain "https://x.test/" (some "http://x.test/") = false := by decide

/-- Claim C7, amended: the domain-scope comparison holds exactly when both
the scheme and the port-stripped hostname agree (each already lower-cased
by the parser, so the equality is case-insensitive on the original texts);
and in a sameDomainOnly recursive session every stored result's URL has the
same extracted base domain - scheme://hostname - as the seed. -/
theorem C7_domain_scope (o : Oracles) (opts : RecOpts) (startUrl url b : String)
    (hsd : opts.sameDomainOnly = true) :
    (∀ u v, parseUrl url = some u → parseUrl b = some v →
      (isSameDomain url (some b) = true ↔
        u.scheme = v.scheme ∧ u.hostName = v.hostName)) ∧
    (∀ r ∈ (recursiveCrawl o opts startUrl).results,
      extractBaseDomain r.page.url = extractBaseDomain startUrl) := by
  constructor
  · intro u v hu hv
    unfold isSameDomain
    rw [show (some b).bind extractBaseDomain = extractBaseDomain b from rfl,
      extractBaseDomain_parse hu, extractBaseDomain_parse hv]
    constructor
    · intro hbeq
      have heq : u.scheme ++ "://" ++ u.hostName = v.scheme ++ "://" ++ v.hostName := by
        simpa using hbeq
      have hc1 : ∀ c ∈ u.scheme.toList, ([':'] : List Char).contains c = false := by
        obtain ⟨⟨-, hsch, -⟩, -, -⟩ := parseUrl_shape hu
        exact fun c hc => alpha_not_colon (List.all_eq_true.mp hsch c hc)
      have hc2 : ∀ c ∈ v.scheme.toList, ([':'] : List Char).contains c = false := by
        obtain ⟨⟨-, hsch, -⟩, -, -⟩ := parseUrl_shape hv
        exact fun c hc => alpha_not_colon (List.all_eq_true.mp hsch c hc)
      exact scheme_host_inj hc1 hc2 heq
    · rintro ⟨hsc, hhn⟩
      rw [hsc, hhn]
      simp
  · have hres : (recursiveCrawl o opts startUrl).results
        = (crawlRec o opts (extractBaseDomain startUrl) (opts.maxDepth + 1) startUrl 0
            { visited := [], results := [], maxDepthReached := 0, currentDepthLevel := 0,
              linkEmitCounter := 0,
              trace := emitActs opts.sinkOn (.start "recursive") }).results := rfl
    rw [hres]
    refine crawlRec_results_inv o opts (extractBaseDomain startUrl)
      (fun r => extractBaseDomain r.page.url = extractBaseDomain startUrl) ?_
      (opts.maxDepth + 1) startUrl 0 _ (by intro r hr; cases hr)
    intro url2 depth nurl heq h4
    have hparse : ∃ u2, parseUrl url2 = some u2 := by
      unfold normalizeUrl at heq
      cases hp : parseUrl url2 with
      | none => rw [hp] at heq; cases heq
      | some u2 => exact ⟨u2, rfl⟩
    obtain ⟨u2, hp2⟩ := hparse
    have hsame : isSameDomain url2 (extractBaseDomain startUrl) = true := by
      rw [hsd] at h4
      simpa using h4
    have hbd : extractBaseDomain url2 = extractBaseDomain startUrl := by
      unfold isSameDomain at hsame
      cases hB : extractBaseDomain startUrl with
      | none =>
        rw [hB, extractBaseDomain_parse hp2] at hsame
        simp at hsame
      | some b0 =>
        rcases extract_extract hB with h2 | h2
        · rw [hB, show (some b0).bind extractBaseDomain = extractBaseDomain b0 from rfl,
            h2, extractBaseDomain_parse hp2] at hsame
          have hv : u2.scheme ++ "://" ++ u2.hostName = b0 := by simpa using hsame
          rw [extractBaseDomain_parse hp2, hv]
        · rw [hB, show (some b0).bind extractBaseDomain = extractBaseDomain b0 from rfl,
            h2, extractBaseDomain_parse hp2] at hsame
          simp at hsame
    show extractBaseDomain (intelligentCrawl o
      { forceMethod := opts.forceMethod,
        detectionThreshold := opts.detectionThreshold, sinkOn := false } url2).1.url
      = extractBaseDomain startUrl
    rcases intelligentCrawl_url o
      { forceMethod := opts.forceMethod,
        detectionThreshold := opts.detectionThreshold, sinkOn := false } url2 with hcu | hcu
    · rw [hcu]
      exact hbd
    · rw [hcu, heq]
      have hnurl : nurl = u2.origin ++ stripOneTrailingSlash u2.path := by
        unfold normalizeUrl at heq
        rw [hp2] at heq
        simpa using heq.symm
      rw [show Option.getD (some nurl) url2 = nurl from rfl, hnurl,
        extract_of_normalized hp2]
      exact hbd

/-- Concrete instance of C7_domain_scope at the static one-link site. -/
theorem C7_domain_scope_witness :
    (∀ u v, parseUrl "http://x.test/" = some u → parseUrl "http://x.test" = some v →
      (isSameDomain "http://x.test/" (some "http://x.test") = true ↔
        u.scheme = v.scheme ∧ u.hostName = v.hostName)) ∧
    (∀ r ∈ (recursiveCrawl oracleStatic {} "http://x.test/").results,
      extractBaseDomain r.page.url = extractBaseDomain "http://x.test/") :=
  C7_domain_scope oracleStatic {} "http://x.test/" "http://x.test/" "http://x.test"
    (by decide)

/-- Claim C8: the detector confidence is the clamped sum of the five
triggered signal weights as the claim lists them, the dynamic verdict holds
exactly when the confidence clears one half, and the detected framework is
the first fingerprint match in order (markup patterns first, generator meta
checks only when no markup pattern matches).  Weights are in exact integer
tenths: 4 is 0.4, the cap 10 is 1.0 and the decision bound 5 is 0.5. -/
theorem C8_detector_verdict (r : PageRead) (linkCount : Nat) :
    (needsPuppeteer r linkCount).confidence = specConfidence r linkCount ∧
    ((needsPuppeteer r linkCount).needsPup = true ↔ specConfidence r linkCount > 5) ∧
    (needsPuppeteer r linkCount).framework
      = (match specFirstMatch r.markup with
         | some fw => some fw
         | none => specFirstMatch r.genSays) := by
  have hconf : (needsPuppeteer r linkCount).confidence = specConfidence r linkCount := by
    unfold needsPuppeteer specConfidence
    dsimp only
    split_ifs <;> decide
  refine ⟨hconf, ?_, ?_⟩
  · have h1 : (needsPuppeteer r linkCount).needsPup
        = decide ((needsPuppeteer r linkCount).confidence > 5) := rfl
    rw [h1, hconf, decide_eq_true_eq]
  · show detectFramework r = _
    unfold detectFramework
    rw [find_eq_specFirstMatch, find_eq_specFirstMatch]

/-- Claim C9: intelligentCrawl is a total function into per-URL results -
the model of never raising across the boundary - and whenever the result it
returns is not a success it carries a classified error kind and message. -/
theorem C9_orchestrator_total (o : Oracles) (opts : CrawlOpts) (url : String) :
    (intelligentCrawl o opts url).1.success = true ∨
    ((intelligentCrawl o opts url).1.success = false ∧
      ∃ t m, (intelligentCrawl o opts url).1.error = some (t, m)) := by
  unfold intelligentCrawl
  split
  · exact pupWrapper_cases o url "forced" false
  · split
    · cases ha : crawlWithAxiosWrapper o url "forced" false with
      | ok rr =>
        left
        unfold crawlWithAxiosWrapper at ha
        cases ha2 : crawlWithAxios o url with
        | ok d =>
          rw [ha2, Except.ok.injEq] at ha
          rw [← ha]
        | error e =>
          rw [ha2] at ha
          exact absurd ha (by simp)
      | error e =>
        right
        exact ⟨rfl, _, _, rfl⟩
    · split
      · exact pupWrapper_cases o url _ opts.sinkOn
      · next d heq =>
        split
        · exact pupWrapper_cases o url _ opts.sinkOn
        · dsimp only
          split
          · exact pupWrapper_cases o url _ opts.sinkOn
          · left
            rfl

/-- Claim C10: recursiveCrawl is a total function - the model of never
throwing - whose session always carries success true; and when the seed URL
fails to parse, nothing is crawled: the session has no results, zero total
pages and zero maximum depth. -/
theorem C10_recursive_success_total (o : Oracles) (opts : RecOpts) (startUrl : String) :
    (recursiveCrawl o opts startUrl).success = true ∧
    (parseUrl startUrl = none →
      (recursiveCrawl o opts startUrl).results = [] ∧
      (recursiveCrawl o opts startUrl).totalPages = 0 ∧
      (recursiveCrawl o opts startUrl).maxDepthReached = 0) := by
  refine ⟨rfl, ?_⟩
  intro hbad
  have hn : normalizeUrl startUrl = none := by
    unfold normalizeUrl
    rw [hbad]
  have hst : crawlRec o opts (extractBaseDomain startUrl) (opts.maxDepth + 1) startUrl 0
      { visited := [], results := [], maxDepthReached := 0, currentDepthLevel := 0,
        linkEmitCounter := 0, trace := emitActs opts.sinkOn (.start "recursive") }
      = { visited := [], results := [], maxDepthReached := 0, currentDepthLevel := 0,
          linkEmitCounter := 0, trace := emitActs opts.sinkOn (.start "recursive") } := by
    rw [crawlRec]
    unfold crawlStep
    rw [hn]
    split_ifs <;> rfl
  refine ⟨?_, ?_, ?_⟩
  · show (crawlRec o opts (extractBaseDomain startUrl) (opts.maxDepth + 1) startUrl 0
      { visited := [], results := [], maxDepthReached := 0, currentDepthLevel := 0,
        linkEmitCounter := 0, trace := emitActs opts.sinkOn (.start "recursive") }).results
      = []
    rw [hst]
  · show (crawlRec o opts (extractBaseDomain startUrl) (opts.maxDepth + 1) startUrl 0
      { visited := [], results := [], maxDepthReached := 0, currentDepthLevel := 0,
        linkEmitCounter := 0, trace := emitActs opts.sinkOn (.start "recursive") }).results.length
      = 0
    rw [hst]
    rfl
  · show (crawlRec o opts (extractBaseDomain startUrl) (opts.maxDepth + 1) startUrl 0
      { visited := [], results := [], maxDepthReached := 0, currentDepthLevel := 0,
        linkEmitCounter := 0, trace := emitActs opts.sinkOn (.start "recursive") }).maxDepthReached
      = 0
    rw [hst]

end AutoCrawler
